import Mathlib

/-! QMenuModel.

A verification development for `libqmenumodel/src/qmenumodel.cpp`: the list model
that mirrors a `GMenuModel` and keeps a cache of lazily created child models keyed
by row.

Modelling conventions.

* The member `m_rowCount` is a 32-bit `int` that accumulates over the notifications: its
  updates in `onItemsChanged` wrap around (`wrap32`). The other `gint`/`int` values, row
  numbers and counts computed within one call, are mathematical integers (`Int`).
* A `GMenuModel *` is a natural number naming an entry of `World.gmodels`; `none` is `NULL`.
* A `QMenuModel *` is owned by exactly one cache (it is created by `new` in `getLink` and
  never shared), so a model and the children it caches form a tree: `m_cache` holds the
  child objects themselves and `ident` plays the part of the object address.
* `QObject::deleteLater` appends the object to `World.deleteLater`; the event loop that
  eventually destroys the queued objects is outside this file.
* Every object records the Qt signals it has emitted, oldest first, in `emitted`.
  Slots of other objects connected to these signals are outside this file.
* Calls into GLib that touch reference counts or signal handlers are recorded in
  `World.glib`, oldest first.
-/

namespace Menu

/-! ## Qt signals -/

/-- Signals of `QAbstractItemModel` used by the model (the parent index is always the
root index and is left out), and the `countChanged` signal of `QMenuModel`. -/
inductive Signal where
  | modelAboutToBeReset
  | modelReset
  | rowsAboutToBeRemoved (first last : Int)
  | rowsRemoved (first last : Int)
  | rowsAboutToBeInserted (first last : Int)
  | rowsInserted (first last : Int)
  | countChanged
  deriving DecidableEq, Repr

/-- Whether a signal is one of the row or reset signals of `QAbstractItemModel`, that is,
any signal but `countChanged`. -/
def Signal.isRowOrReset : Signal → Bool
  | .countChanged => false
  | _ => true

/-- The row and reset signals of a signal sequence, in order, with every `countChanged`
left out. -/
def rowAndReset (l : List Signal) : List Signal := l.filter Signal.isRowOrReset

/-! ## The GLib side -/

/-- Attribute values of a menu item: a string, or a value of another type. -/
inductive GVariant where
  | string (s : String)
  | boolean (b : Bool)
  | int32 (i : Int)
  deriving DecidableEq, Repr

/-- One item of a `GMenuModel`: its attributes by name and its links by name. -/
structure GMenuItem where
  attributes : List (String × GVariant)
  links : List (String × Nat)
  deriving DecidableEq, Repr

/-- GLib calls made by the model that change a reference count or a signal handler. -/
inductive GCall where
  | g_object_ref (object : Nat)
  | g_object_unref (object : Nat)
  | g_signal_connect (source : Nat) (data : Nat) (handler : Nat)
  | g_signal_handler_disconnect (source : Nat) (handler : Nat)
  | g_menu_model_get_item_link (link : Nat)
  deriving DecidableEq, Repr

/-! ## Qt values -/

/-- The `QVariant` values produced by the model. -/
inductive QVariant where
  | invalid
  | string (s : String)
  | object (ident : Nat)
  | map (m : List (String × QVariant))

/-- Whether a `QVariant` is valid (`QVariant::isValid`). -/
def QVariant.isValid : QVariant → Bool
  | QVariant.invalid => false
  | _ => true

/-- Insertion in a `QMap<QString, QVariant>`: the value of an existing key is replaced. -/
def QMap.insert (m : List (String × QVariant)) (key : String) (value : QVariant) :
    List (String × QVariant) :=
  (key, value) :: m.filter (fun e => decide (e.1 ≠ key))

/-- Keys of a `QMap`. -/
def QMap.keys (m : List (String × QVariant)) : List String := m.map (fun e => e.1)

/-- Lookup in a `QMap`. -/
def QMap.value (m : List (String × QVariant)) (key : String) : Option QVariant :=
  match m with
  | [] => none
  | (k, v) :: t => if k = key then some v else QMap.value t key

/-! ## The model object and the world around it -/

/-- A `QMenuModel` object. `m_menuModel`, `m_signalChangedId`, `m_rowCount` and `m_cache`
are the C++ members; `countChangedConnected` says whether the three `connect` calls of the
constructor have been made; `emitted` is the history of signals emitted by the object. -/
structure QMenuModel where
  ident : Nat
  m_menuModel : Option Nat
  m_signalChangedId : Nat
  m_rowCount : Int
  m_cache : List (Int × QMenuModel)
  countChangedConnected : Bool
  emitted : List Signal
  deriving Repr

/-- Type `QHash<int, QMenuModel*>`: the list stands for the set of its bindings; iteration
order of a `QHash` is unspecified and is taken to be the order of the list. -/
abbrev QHash := List (Int × QMenuModel)

/-- Everything outside a single model object: the menu sources, the trace of GLib calls,
the number of signal handlers connected so far, the next free object address and the
objects whose destruction has been requested with `deleteLater`. -/
structure World where
  gmodels : List (Nat × List GMenuItem)
  glib : List GCall
  handlerCount : Nat
  nextIdent : Nat
  deleteLater : List QMenuModel
  deriving Repr

/-- The world after one more GLib call has been recorded. -/
def World.call (w : World) (c : GCall) : World :=
  { w with glib := w.glib ++ [c] }

/-- Items of the source `model` (no items for an unknown pointer). -/
def World.items (w : World) (model : Nat) : List GMenuItem :=
  match w.gmodels.lookup model with
  | some items => items
  | none => []

/-- The item at `row`, when there is one. -/
def itemAt (items : List GMenuItem) (row : Int) : Option GMenuItem :=
  if 0 ≤ row then items.get? row.toNat else none

/-- GLib function `g_menu_model_get_n_items`. -/
def g_menu_model_get_n_items (w : World) (model : Nat) : Int :=
  ((w.items model).length : Int)

/-- GLib function `g_menu_model_get_item_attribute` with format string `"s"`: the value is set only
when the attribute exists and holds a string. -/
def g_menu_model_get_item_attribute_s (w : World) (model : Nat) (row : Int)
    (attr : String) : Option String :=
  match itemAt (w.items model) row with
  | none => none
  | some item =>
    match item.attributes.lookup attr with
    | some (GVariant.string s) => some s
    | _ => none

/-- GLib function `g_menu_model_get_item_link`: the linked model, or `NULL`. -/
def g_menu_model_get_item_link (w : World) (model : Nat) (row : Int) (link : String) :
    Option Nat :=
  match itemAt (w.items model) row with
  | none => none
  | some item => item.links.lookup link

/-- GLib function `g_menu_model_iterate_item_attributes` followed by reading the iterator to its end. -/
def g_menu_model_iterate_item_attributes (w : World) (model : Nat) (row : Int) :
    Option (List (String × GVariant)) :=
  match itemAt (w.items model) row with
  | none => none
  | some item => some item.attributes

/-! ## `QHash<int, QMenuModel*>` -/

/-- Operation `QHash::contains`. -/
def QHash.contains (h : QHash) (key : Int) : Bool :=
  h.any (fun e => decide (e.1 = key))

/-- Operation `QHash::value`, with `none` for the default-constructed (null) pointer of a missing
key. -/
def QHash.value (h : QHash) (key : Int) : Option QMenuModel :=
  match h with
  | [] => none
  | (k, v) :: t => if k = key then some v else QHash.value t key

/-- Operation `QHash::remove`. -/
def QHash.remove (h : QHash) (key : Int) : QHash :=
  h.filter (fun e => decide (e.1 ≠ key))

/-- Operation `QHash::take`: removes the key and returns its value. -/
def QHash.take (h : QHash) (key : Int) : Option QMenuModel × QHash :=
  (QHash.value h key, QHash.remove h key)

/-- Operation `QHash::insert`: the value of an existing key is replaced. -/
def QHash.insert (h : QHash) (key : Int) (value : QMenuModel) : QHash :=
  (key, value) :: QHash.remove h key

/-! ## 32-bit integers -/

/-- The value of a 32-bit `int` holding `x` after two's complement wrap-around. -/
def wrap32 (x : Int) : Int := (x + 2147483648) % 4294967296 - 2147483648

/-! ## Loops -/

/-- A loop `for (int i = start; i < start + n; ++i) body(i)` of `n` iterations. -/
def forUp {σ : Type} (body : Int → σ → σ) : Nat → Int → σ → σ
  | 0, _, s => s
  | n + 1, i, s => forUp body n (i + 1) (body i s)

/-- A loop `for (int i = start; i > start - n; --i) body(i)` of `n` iterations. -/
def forDown {σ : Type} (body : Int → σ → σ) : Nat → Int → σ → σ
  | 0, _, s => s
  | n + 1, i, s => forDown body n (i - 1) (body i s)

/-! ## Signal emission (`QAbstractItemModel`) -/

namespace QMenuModel

/-- Emission of one signal. -/
def emit (self : QMenuModel) (s : Signal) : QMenuModel :=
  { self with emitted := self.emitted ++ [s] }

/-- The slot connections made by the constructor: `countChanged` is emitted right after
`rowsInserted`, `rowsRemoved` and `modelReset`. -/
def emitCountChanged (self : QMenuModel) : QMenuModel :=
  if self.countChangedConnected then self.emit Signal.countChanged else self

/-- Qt method `beginResetModel`. -/
def beginResetModel (self : QMenuModel) : QMenuModel :=
  self.emit Signal.modelAboutToBeReset

/-- Qt method `endResetModel`. -/
def endResetModel (self : QMenuModel) : QMenuModel :=
  (self.emit Signal.modelReset).emitCountChanged

/-- Qt method `beginRemoveRows(QModelIndex(), first, last)`. -/
def beginRemoveRows (self : QMenuModel) (first last : Int) : QMenuModel :=
  self.emit (Signal.rowsAboutToBeRemoved first last)

/-- Qt method `endRemoveRows`, for the range opened by the matching `beginRemoveRows`. -/
def endRemoveRows (self : QMenuModel) (first last : Int) : QMenuModel :=
  (self.emit (Signal.rowsRemoved first last)).emitCountChanged

/-- Qt method `beginInsertRows(QModelIndex(), first, last)`. -/
def beginInsertRows (self : QMenuModel) (first last : Int) : QMenuModel :=
  self.emit (Signal.rowsAboutToBeInserted first last)

/-- Qt method `endInsertRows`, for the range opened by the matching `beginInsertRows`. -/
def endInsertRows (self : QMenuModel) (first last : Int) : QMenuModel :=
  (self.emit (Signal.rowsInserted first last)).emitCountChanged

/-! ## `setMenuModel` and `clearModel` -/

/-- The first statement of `clearModel`: disconnect from and release the source. -/
def releaseSource (w : World) (self : QMenuModel) : World × QMenuModel :=
  match self.m_menuModel with
  | some m =>
    ({ w with glib := w.glib ++ [GCall.g_signal_handler_disconnect m self.m_signalChangedId,
                                  GCall.g_object_unref m] },
     { self with m_signalChangedId := 0, m_menuModel := none })
  | none => (w, self)

/-- The statements of `setMenuModel` after `clearModel()`: bind to `other`. -/
def bindSource (w : World) (self : QMenuModel) (other : Option Nat) : World × QMenuModel :=
  match other with
  | some m =>
    ({ w with glib := w.glib ++ [GCall.g_object_ref m,
                                  GCall.g_signal_connect m self.ident (w.handlerCount + 1)],
              handlerCount := w.handlerCount + 1 },
     { self with m_menuModel := some m,
                 m_rowCount := g_menu_model_get_n_items w m,
                 m_signalChangedId := w.handlerCount + 1 })
  | none => (w, { self with m_menuModel := none, m_rowCount := 0 })

mutual
/-- Method `QMenuModel::setMenuModel`, with the body of `clearModel()` in place of the call
(`setMenuModel_unfold` states it with the call). -/
def setMenuModel (w : World) (self : QMenuModel) (other : Option Nat) : World × QMenuModel :=
  match self with
  | ⟨ident, menuModel, signalChangedId, rowCount, cache, connected, emitted⟩ =>
    let self0 : QMenuModel :=
      ⟨ident, menuModel, signalChangedId, rowCount, cache, connected, emitted⟩
    if menuModel = other then
      (w, self0)
    else
      let self1 := self0.beginResetModel
      let r2 := releaseSource w self1
      let w3 := clearChildren false r2.1 cache
      let self3 : QMenuModel := { r2.2 with m_cache := [] }
      let r4 := bindSource w3 self3 other
      (r4.1, r4.2.endResetModel)
/-- The `Q_FOREACH` loop of `clearModel` over the cached children. -/
def clearChildren (destructor : Bool) (w : World) : List (Int × QMenuModel) → World
  | [] => w
  | (_, child) :: rest =>
    if destructor then
      clearChildren destructor { w with deleteLater := w.deleteLater ++ [child] } rest
    else
      let r := setMenuModel w child none
      clearChildren destructor { r.1 with deleteLater := r.1.deleteLater ++ [r.2] } rest
end

/-- Method `QMenuModel::clearModel`. -/
def clearModel (w : World) (self : QMenuModel) (destructor : Bool) : World × QMenuModel :=
  let r := releaseSource w self
  let w1 := clearChildren destructor r.1 r.2.m_cache
  (w1, { r.2 with m_cache := [] })

/-- The constructor `QMenuModel::QMenuModel(other)`: a fresh object, `setMenuModel(other)`,
then the three connections to `countChanged`. -/
def construct (w : World) (other : Option Nat) : World × QMenuModel :=
  let self0 : QMenuModel := ⟨w.nextIdent, none, 0, 0, [], false, []⟩
  let r := setMenuModel { w with nextIdent := w.nextIdent + 1 } self0 other
  (r.1, { r.2 with countChangedConnected := true })

/-- The destructor: `clearModel(true)`; the object and its cache are gone afterwards. -/
def destruct (w : World) (self : QMenuModel) : World :=
  (clearModel w self true).1

/-- Method `QMenuModel::count`. -/
def count (self : QMenuModel) : Int := self.m_rowCount

/-- Method `QMenuModel::menuModel`. -/
def menuModel (self : QMenuModel) : Option Nat := self.m_menuModel

/-- Method `QMenuModel::cache`. -/
def cache (self : QMenuModel) : QHash := self.m_cache

/-- Method `QMenuModel::rowCount`. -/
def rowCount (w : World) (self : QMenuModel) : Int :=
  match self.m_menuModel with
  | some m => g_menu_model_get_n_items w m
  | none => 0

/-! ## Attribute access -/

/-- Method `QMenuModel::getStringAttribute`. -/
def getStringAttribute (w : World) (self : QMenuModel) (row : Int) (attr : String) :
    QVariant :=
  match self.m_menuModel with
  | none => QVariant.invalid
  | some m =>
    match g_menu_model_get_item_attribute_s w m row attr with
    | some value => QVariant.string value
    | none => QVariant.invalid

/-- Method `QMenuModel::getLink`. The function is `const` in C++ but writes to the cache behind
`m_cache`, so it returns the new world and object together with its result. -/
def getLink (w : World) (self : QMenuModel) (row : Int) (linkName : String) :
    World × QMenuModel × QVariant :=
  match self.m_menuModel.bind (fun m => g_menu_model_get_item_link w m row linkName) with
  | some link =>
    let w1 := w.call (GCall.g_menu_model_get_item_link link)
    let key := row
    let child : Option QMenuModel :=
      if QHash.contains self.m_cache key then QHash.value self.m_cache key else none
    match child with
    | some cached =>
      (w1.call (GCall.g_object_unref link), self, QVariant.object cached.ident)
    | none =>
      let r := construct w1 (some link)
      (r.1.call (GCall.g_object_unref link),
        { self with m_cache := QHash.insert self.m_cache key r.2 },
        QVariant.object r.2.ident)
  | none => (w, self, QVariant.invalid)

/-- Operation `QString::startsWith` on the characters of the strings. -/
def startsWith : List Char → List Char → Bool
  | _, [] => true
  | [], _ :: _ => false
  | c :: s, d :: p => decide (c = d) && startsWith s p

/-- Method `QMenuModel::parseExtraPropertyName`: drop a leading `x-`, then replace every `-`
by `_`. -/
def parseExtraPropertyName (name : String) : String :=
  let newName : List Char := if startsWith name.data "x-".data then name.data.drop 2 else name.data
  String.mk (newName.map (fun c => if c = '-' then '_' else c))

/-- Method `QMenuModel::getExtraProperties`. `toQVariant` is `Converter::toQVariant` of
converter.h. -/
def getExtraProperties (toQVariant : GVariant → QVariant) (w : World) (self : QMenuModel)
    (row : Int) : QVariant :=
  match self.m_menuModel.bind (fun m => g_menu_model_iterate_item_attributes w m row) with
  | none => QVariant.invalid
  | some attrs =>
    QVariant.map (attrs.foldl (fun extra a =>
      if startsWith a.1.data "x-".data then
        QMap.insert extra (parseExtraPropertyName a.1) (toQVariant a.2)
      else extra) [])

/-- Modelled from the spec: the `MenuRoles` enumeration is declared in qmenumodel.h, which
is not among the sources; the spec gives the fixed role vocabulary action, label,
section-link, submenu-link, extensions, numbered here in that order. -/
def Action : Int := 0

/-- Modelled from the spec: the label role of `MenuRoles` (see `Action`). -/
def Label : Int := 1

/-- Modelled from the spec: the section-link role of `MenuRoles` (see `Action`). -/
def LinkSection : Int := 2

/-- Modelled from the spec: the submenu-link role of `MenuRoles` (see `Action`). -/
def LinkSubMenu : Int := 3

/-- Modelled from the spec: the extensions role of `MenuRoles` (see `Action`). -/
def Extra : Int := 4

/-- Method `QMenuModel::roleNames`. -/
def roleNames : List (Int × String) :=
  [(Action, "action"), (Label, "label"), (LinkSection, "linkSection"),
   (LinkSubMenu, "linkSubMenu"), (Extra, "extra")]

/-- Method `QMenuModel::data`, for the row of the index. `G_MENU_ATTRIBUTE_ACTION`,
`G_MENU_ATTRIBUTE_LABEL`, `G_MENU_LINK_SECTION` and `G_MENU_LINK_SUBMENU` are the GLib
names `action`, `label`, `section` and `submenu`. -/
def data (toQVariant : GVariant → QVariant) (w : World) (self : QMenuModel) (row : Int)
    (role : Int) : World × QMenuModel × QVariant :=
  let rowCountValue := rowCount w self
  if rowCountValue > 0 ∧ row ≥ 0 ∧ row < rowCountValue then
    if self.m_menuModel.isSome then
      if role = Action then (w, self, getStringAttribute w self row "action")
      else if role = Label then (w, self, getStringAttribute w self row "label")
      else if role = LinkSection then getLink w self row "section"
      else if role = LinkSubMenu then getLink w self row "submenu"
      else if role = Extra then (w, self, getExtraProperties toQVariant w self row)
      else (w, self, QVariant.invalid)
    else (w, self, QVariant.invalid)
  else (w, self, QVariant.invalid)

/-- The constant `Qt::UserRole` of Qt 5. -/
def UserRole : Int := 256

/-- Body of the loop of `QAbstractItemModel::itemData`: the value of `data` for `role` is
kept when it is valid. -/
def itemDataStep (toQVariant : GVariant → QVariant) (row : Int) (role : Int)
    (s : World × QMenuModel × List (Int × QVariant)) :
    World × QMenuModel × List (Int × QVariant) :=
  let r := data toQVariant s.1 s.2.1 row role
  (r.1, r.2.1,
    if r.2.2.isValid then (role, r.2.2) :: s.2.2.filter (fun e => decide (e.1 ≠ role))
    else s.2.2)

/-- Qt method `QAbstractItemModel::itemData` for the row of the index: `data` is read for
the roles `0`, `1`, ... below `Qt::UserRole`, in this order. -/
def itemData (toQVariant : GVariant → QVariant) (w : World) (self : QMenuModel) (row : Int) :
    World × QMenuModel × List (Int × QVariant) :=
  forUp (itemDataStep toQVariant row) (UserRole - 0).toNat 0 (w, self, [])

/-- Method `QMenuModel::get`. The index of `row` is valid when `0 ≤ row < rowCount()`
(`QAbstractListModel::index`); `data[i]` of a role without entry is a default-constructed,
hence invalid, `QVariant` (`QMap::operator[]`). -/
def get (toQVariant : GVariant → QVariant) (w : World) (self : QMenuModel) (row : Int) :
    World × QMenuModel × List (String × QVariant) :=
  if 0 ≤ row ∧ row < rowCount w self then
    let d := itemData toQVariant w self row
    (d.1, d.2.1,
      roleNames.foldl (fun result e =>
        QMap.insert result e.2
          (match d.2.2.lookup e.1 with
           | some v => v
           | none => QVariant.invalid)) [])
  else (w, self, [])

/-! ## `onItemsChanged` -/

/-- Body of the first loop of `onItemsChanged`: evict the child cached at row `i`. -/
def evictStep (i : Int) (s : World × QHash) : World × QHash :=
  if QHash.contains s.2 i then
    match QHash.take s.2 i with
    | (some cached, cache1) =>
      let r := setMenuModel s.1 cached none
      ({ r.1 with deleteLater := r.1.deleteLater ++ [r.2] }, cache1)
    | (none, cache1) => (s.1, cache1)
  else s

/-- Body of the second loop of `onItemsChanged`: `cache->insert(i - removed, cache->take(i))`
when row `i` is cached. -/
def rekeyDown (removed : Int) (i : Int) (cache : QHash) : QHash :=
  if QHash.contains cache i then
    match QHash.take cache i with
    | (some cached, cache1) => QHash.insert cache1 (i - removed) cached
    | (none, cache1) => cache1
  else cache

/-- Body of the third loop of `onItemsChanged`: `cache->insert(i + added, cache->take(i))`
when row `i` is cached. -/
def rekeyUp (added : Int) (i : Int) (cache : QHash) : QHash :=
  if QHash.contains cache i then
    match QHash.take cache i with
    | (some cached, cache1) => QHash.insert cache1 (i + added) cached
    | (none, cache1) => cache1
  else cache

/-- Method `QMenuModel::onItemsChanged(model, position, removed, added, data)` with `self` the
object behind `data`. -/
def onItemsChanged (w : World) (model : Nat) (position removed added : Int)
    (self : QMenuModel) : World × QMenuModel :=
  let prevcount := g_menu_model_get_n_items w model + removed - added
  let s1 : World × QMenuModel :=
    if removed > 0 then
      let self1 := self.beginRemoveRows position (position + removed - 1)
      let self2 : QMenuModel :=
        { self1 with m_rowCount := wrap32 (self1.m_rowCount - removed) }
      let e := forUp evictStep ((position + removed) - position).toNat position
        (w, self2.m_cache)
      let cache4 := forUp (rekeyDown removed) (prevcount - (position + removed)).toNat
        (position + removed) e.2
      (e.1, ({ self2 with m_cache := cache4 }).endRemoveRows position (position + removed - 1))
    else (w, self)
  if added > 0 then
    let self5 := s1.2.beginInsertRows position (position + added - 1)
    let cache6 := forDown (rekeyUp added) ((prevcount - removed - 1) - position + 1).toNat
      (prevcount - removed - 1) self5.m_cache
    let self7 : QMenuModel :=
      { self5 with m_cache := cache6, m_rowCount := wrap32 (self5.m_rowCount + added) }
    (s1.1, self7.endInsertRows position (position + added - 1))
  else s1

/-! ## Delivery of `items-changed` -/

/-- One emission of `items-changed` by a source: `items` is the content of the source at
the time the handler runs, and the three numbers are the arguments of the signal. -/
structure ItemsChanged where
  items : List GMenuItem
  position : Int
  removed : Int
  added : Int

end QMenuModel

/-- The world after the source `model` has changed its content to `items`. -/
def World.setItems (w : World) (model : Nat) (items : List GMenuItem) : World :=
  { w with gmodels := (model, items) :: w.gmodels.filter (fun e => decide (e.1 ≠ model)) }

namespace QMenuModel

/-- The source `model` changes as `n` says and `onItemsChanged` runs on the model. -/
def deliver (model : Nat) (s : World × QMenuModel) (n : ItemsChanged) : World × QMenuModel :=
  onItemsChanged (s.1.setItems model n.items) model n.position n.removed n.added s.2

/-- A sequence of notifications delivered in order. -/
def deliverAll (model : Nat) (s : World × QMenuModel) (ns : List ItemsChanged) :
    World × QMenuModel :=
  ns.foldl (deliver model) s

/-- Sum of the `added` arguments of a sequence of notifications. -/
def sumAdded (ns : List ItemsChanged) : Int := (ns.map (fun n => n.added)).sum

/-- Sum of the `removed` arguments of a sequence of notifications. -/
def sumRemoved (ns : List ItemsChanged) : Int := (ns.map (fun n => n.removed)).sum

/-- A sequence of notifications is consistent from a count `c` when every notification
finds the source with as many items as its counts announce. -/
def consistentFrom (c : Int) : List ItemsChanged → Prop
  | [] => True
  | n :: rest =>
    (n.items.length : Int) = c - n.removed + n.added ∧
      consistentFrom (c - n.removed + n.added) rest

/-! ## Scenarios -/

/-- An item without links. -/
def plainItem : GMenuItem := ⟨[("label", GVariant.string "item")], []⟩

/-- An item whose submenu link points to the source 11. -/
def linkItem : GMenuItem := ⟨[("label", GVariant.string "more")], [("submenu", 11)]⟩

/-- A world in which the source 10 holds `rows` and the source 11 holds one item. -/
def scenarioWorld (rows : List GMenuItem) : World :=
  ⟨[(10, rows), (11, [plainItem])], [], 0, 100, []⟩

/-- A model constructed on the source 10 of `scenarioWorld rows`. -/
def scenarioModel (rows : List GMenuItem) : World × QMenuModel :=
  construct (scenarioWorld rows) (some 10)

/-- The state reached from `scenarioModel rows` by reading the submenu link of `row`. -/
def scenarioLinked (rows : List GMenuItem) (row : Int) : World × QMenuModel :=
  let g := getLink (scenarioModel rows).1 (scenarioModel rows).2 row "submenu"
  (g.1, g.2.1)

/-- Scenario A before the batch: a model constructed on a source of five items. -/
def scenarioA : World × QMenuModel :=
  scenarioModel [plainItem, plainItem, plainItem, plainItem, plainItem]

/-- Scenario A: one row removed and three inserted at position 2. -/
def scenarioABatch : ItemsChanged :=
  ⟨[plainItem, plainItem, linkItem, linkItem, linkItem, plainItem, plainItem], 2, 1, 3⟩

/-- Scenario B before the batch: five items, the child of row 4 cached. -/
def scenarioB : World × QMenuModel :=
  scenarioLinked [plainItem, plainItem, plainItem, plainItem, linkItem] 4

/-- Scenario B: two rows removed at position 1. -/
def scenarioBBatch : ItemsChanged :=
  ⟨[plainItem, plainItem, linkItem], 1, 2, 0⟩

/-- Scenario C before the batch: five items, the child of row 3 cached. -/
def scenarioC : World × QMenuModel :=
  scenarioLinked [plainItem, plainItem, plainItem, linkItem, plainItem] 3

/-- Scenario C: two rows inserted at position 1. -/
def scenarioCBatch : ItemsChanged :=
  ⟨[plainItem, plainItem, plainItem, plainItem, plainItem, linkItem, plainItem], 1, 0, 2⟩

/-- Scenario B with the cached row inside the removed range: rows 3 and 4 removed. -/
def scenarioEvictBatch : ItemsChanged :=
  ⟨[plainItem, plainItem, plainItem], 3, 2, 0⟩

/-- An item with a label, no action, two vendor attributes, a section link to the source 12
and a submenu link to the source 11. -/
def richItem : GMenuItem :=
  ⟨[("label", GVariant.string "rich"), ("x-canonical-type", GVariant.string "toggle"),
    ("x-foo-bar", GVariant.int32 3)],
   [("section", 12), ("submenu", 11)]⟩

/-- A model constructed on the source 10 holding `richItem` and a plain item. -/
def scenarioRich : World × QMenuModel :=
  construct ⟨[(10, [richItem, plainItem]), (11, [plainItem]), (12, [plainItem, plainItem])],
    [], 0, 100, []⟩ (some 10)

/-- Two rows whose submenu links point to the same source 11, both links read. -/
def scenarioTwins : World × QMenuModel :=
  let g := getLink (scenarioLinked [linkItem, linkItem] 0).1
    (scenarioLinked [linkItem, linkItem] 0).2 1 "submenu"
  (g.1, g.2.1)

mutual
/-- The identities of an object and of every object below it in its cache. -/
def idents : QMenuModel → List Nat
  | ⟨ident, _, _, _, cache, _, _⟩ => ident :: cacheIdents cache
/-- The identities of the objects of a cache and of every object below them. -/
def cacheIdents : List (Int × QMenuModel) → List Nat
  | [] => []
  | (_, child) :: rest => idents child ++ cacheIdents rest
end

/-- The states reached from a freshly constructed model by `setMenuModel`, `getLink` and
the delivery of `items-changed` notifications (of any batch, after any change of the
source). -/
inductive Reachable : World × QMenuModel → Prop
  | init (w : World) (other : Option Nat) : Reachable (construct w other)
  | attach (s : World × QMenuModel) (other : Option Nat) :
      Reachable s → Reachable (setMenuModel s.1 s.2 other)
  | link (s : World × QMenuModel) (row : Int) (linkName : String) :
      Reachable s →
      Reachable ((getLink s.1 s.2 row linkName).1, (getLink s.1 s.2 row linkName).2.1)
  | change (s : World × QMenuModel) (model : Nat) (n : ItemsChanged) :
      Reachable s → Reachable (deliver model s n)

/-- A cache whose objects were allocated before `N` and are pairwise distinct. -/
def CacheOk (N : Nat) (c : QHash) : Prop :=
  (∀ k v, QHash.value c k = some v → v.ident < N) ∧
    ∀ k1 k2 c1 c2, QHash.value c k1 = some c1 → QHash.value c k2 = some c2 →
      c1.ident = c2.ident → k1 = k2

/-- An item that carries at least one link. -/
def linkBearing (item : GMenuItem) : Bool := !item.links.isEmpty

/-- The items of a source after the `rm` items at `p` have been replaced by `newItems`. -/
def replaceRows (items : List GMenuItem) (p rm : Nat) (newItems : List GMenuItem) :
    List GMenuItem :=
  items.take p ++ newItems ++ items.drop (p + rm)

/-- Whether `countChanged` occurs in `l` before the first occurrence of `target`. -/
def countChangedBefore (target : Signal) (l : List Signal) : Bool :=
  decide (Signal.countChanged ∈ l.takeWhile (fun s => decide (s ≠ target)))

end QMenuModel


open QMenuModel

/-! ## Facts about `QHash` -/

theorem QHash.value_remove (h : QHash) (key k : Int) :
    QHash.value (QHash.remove h key) k = if k = key then none else QHash.value h k := by
  induction h with
  | nil => simp [QHash.remove, QHash.value]
  | cons e t ih =>
    obtain ⟨a, v⟩ := e
    by_cases ha : a = key
    · subst ha
      have : QHash.remove ((a, v) :: t) a = QHash.remove t a := by
        simp [QHash.remove]
      rw [this, ih]
      by_cases hk : k = a
      · simp [hk]
      · have hk2 : ¬ a = k := fun h => hk h.symm
        simp [hk, hk2, QHash.value]
    · have : QHash.remove ((a, v) :: t) key = (a, v) :: QHash.remove t key := by
        simp [QHash.remove, ha]
      rw [this]
      simp only [QHash.value]
      rw [ih]
      by_cases hak : a = k
      · have : ¬ k = key := by rw [← hak]; exact ha
        simp [hak, this]
      · simp [hak]

theorem QHash.value_insert (h : QHash) (key k : Int) (v : QMenuModel) :
    QHash.value (QHash.insert h key v) k =
      if k = key then some v else QHash.value h k := by
  simp only [QHash.insert, QHash.value]
  rw [QHash.value_remove]
  by_cases hk : k = key
  · simp [hk]
  · have : ¬ key = k := fun h => hk h.symm
    simp [hk, this]

theorem QHash.contains_iff (h : QHash) (key : Int) :
    QHash.contains h key = (QHash.value h key).isSome := by
  induction h with
  | nil => simp [QHash.contains, QHash.value]
  | cons e t ih =>
    obtain ⟨a, v⟩ := e
    simp only [QHash.contains, QHash.value, List.any_cons] at ih ⊢
    by_cases ha : a = key
    · simp [ha]
    · simp [ha, ih]

theorem QHash.value_mem (h : QHash) (key : Int) (v : QMenuModel)
    (hv : QHash.value h key = some v) : (key, v) ∈ h := by
  induction h with
  | nil => simp [QHash.value] at hv
  | cons e t ih =>
    obtain ⟨a, x⟩ := e
    simp only [QHash.value] at hv
    by_cases ha : a = key
    · simp [ha] at hv
      simp [ha, hv]
    · simp [ha] at hv
      exact List.mem_cons_of_mem _ (ih hv)

/-! ## Facts about the loops -/

theorem forUp_succ {σ : Type} (body : Int → σ → σ) (n : Nat) (i : Int) (s : σ) :
    forUp body (n + 1) i s = body (i + n) (forUp body n i s) := by
  induction n generalizing i s with
  | zero => simp [forUp]
  | succ m ih =>
    rw [forUp, ih, forUp]
    have : i + 1 + (m : Int) = i + ((m + 1 : Nat) : Int) := by push_cast; ring
    rw [this]

theorem forDown_succ {σ : Type} (body : Int → σ → σ) (n : Nat) (i : Int) (s : σ) :
    forDown body (n + 1) i s = body (i - n) (forDown body n i s) := by
  induction n generalizing i s with
  | zero => simp [forDown]
  | succ m ih =>
    rw [forDown, ih, forDown]
    have : i - 1 - (m : Int) = i - ((m + 1 : Nat) : Int) := by push_cast; ring
    rw [this]

theorem value_evictStep (i : Int) (s : World × QHash) (k : Int) :
    QHash.value (evictStep i s).2 k = if k = i then none else QHash.value s.2 k := by
  unfold evictStep
  rw [QHash.contains_iff]
  cases hv : QHash.value s.2 i with
  | none =>
    by_cases hk : k = i
    · simp [hk, hv]
    · simp [hk]
  | some c =>
    simp [QHash.take, hv, QHash.value_remove]

theorem value_rekeyDown (removed i : Int) (c : QHash) (k : Int) :
    QHash.value (rekeyDown removed i c) k =
      match QHash.value c i with
      | none => QHash.value c k
      | some v => if k = i - removed then some v else if k = i then none else QHash.value c k := by
  unfold rekeyDown
  rw [QHash.contains_iff]
  cases hv : QHash.value c i with
  | none => simp
  | some v => simp [QHash.take, hv, QHash.value_insert, QHash.value_remove]

theorem value_rekeyUp (added i : Int) (c : QHash) (k : Int) :
    QHash.value (rekeyUp added i c) k =
      match QHash.value c i with
      | none => QHash.value c k
      | some v => if k = i + added then some v else if k = i then none else QHash.value c k := by
  unfold rekeyUp
  rw [QHash.contains_iff]
  cases hv : QHash.value c i with
  | none => simp
  | some v => simp [QHash.take, hv, QHash.value_insert, QHash.value_remove]

theorem value_evictLoop (n : Nat) (p : Int) (s : World × QHash) (k : Int) :
    QHash.value (forUp evictStep n p s).2 k =
      if p ≤ k ∧ k < p + n then none else QHash.value s.2 k := by
  induction n generalizing k with
  | zero =>
    have : ¬ (p ≤ k ∧ k < p + ((0 : Nat) : Int)) := by omega
    rw [if_neg this]; rfl
  | succ m ih =>
    rw [forUp_succ, value_evictStep, ih]
    by_cases hk : k = p + m
    · have : p ≤ k ∧ k < p + ((m + 1 : Nat) : Int) := by omega
      rw [if_pos hk, if_pos this]
    · by_cases hr : p ≤ k ∧ k < p + (m : Int)
      · have : p ≤ k ∧ k < p + ((m + 1 : Nat) : Int) := by omega
        rw [if_neg hk, if_pos hr, if_pos this]
      · have : ¬ (p ≤ k ∧ k < p + ((m + 1 : Nat) : Int)) := by omega
        rw [if_neg hk, if_neg hr, if_neg this]

theorem value_rekeyDownLoop (rm lo : Int) (c : QHash) (hrm : 0 < rm)
    (hwin : ∀ k, lo - rm ≤ k → k < lo → QHash.value c k = none) (n : Nat) (k : Int) :
    QHash.value (forUp (rekeyDown rm) n lo c) k =
      if lo - rm ≤ k ∧ k < lo - rm + n then QHash.value c (k + rm)
      else if lo ≤ k ∧ k < lo + n then none else QHash.value c k := by
  induction n generalizing k with
  | zero =>
    have h1 : ¬ (lo - rm ≤ k ∧ k < lo - rm + ((0 : Nat) : Int)) := by omega
    have h2 : ¬ (lo ≤ k ∧ k < lo + ((0 : Nat) : Int)) := by omega
    rw [if_neg h1, if_neg h2]; rfl
  | succ m ih =>
    rw [forUp_succ, value_rekeyDown]
    have hi : QHash.value (forUp (rekeyDown rm) m lo c) (lo + m) = QHash.value c (lo + m) := by
      rw [ih]
      have h1 : ¬ (lo - rm ≤ lo + (m : Int) ∧ lo + (m : Int) < lo - rm + m) := by omega
      have h2 : ¬ (lo ≤ lo + (m : Int) ∧ lo + (m : Int) < lo + m) := by omega
      rw [if_neg h1, if_neg h2]
    rw [hi, ih]
    by_cases ka : k = lo + m - rm
    · have g1 : lo - rm ≤ k ∧ k < lo - rm + ((m + 1 : Nat) : Int) := by omega
      have g2 : ¬ (lo - rm ≤ k ∧ k < lo - rm + (m : Int)) := by omega
      have g3 : k + rm = lo + m := by omega
      rw [if_pos g1, if_neg g2, g3]
      cases hc : QHash.value c (lo + m) with
      | some v => dsimp only; rw [if_pos ka]
      | none =>
        dsimp only
        by_cases g4 : lo ≤ k ∧ k < lo + (m : Int)
        · rw [if_pos g4]
        · rw [if_neg g4]
          exact hwin k (by omega) (by omega)
    · by_cases kb : k = lo + m
      · have g1 : ¬ (lo - rm ≤ k ∧ k < lo - rm + ((m + 1 : Nat) : Int)) := by omega
        have g2 : ¬ (lo - rm ≤ k ∧ k < lo - rm + (m : Int)) := by omega
        have g3 : lo ≤ k ∧ k < lo + ((m + 1 : Nat) : Int) := by omega
        have g4 : ¬ (lo ≤ k ∧ k < lo + (m : Int)) := by omega
        rw [if_neg g1, if_pos g3, if_neg g2, if_neg g4]
        cases hc : QHash.value c (lo + m) with
        | some v => dsimp only; rw [if_neg ka, if_pos kb]
        | none => dsimp only; rw [kb, hc]
      · have g1 : (lo - rm ≤ k ∧ k < lo - rm + ((m + 1 : Nat) : Int)) ↔
            (lo - rm ≤ k ∧ k < lo - rm + (m : Int)) := by omega
        have g2 : (lo ≤ k ∧ k < lo + ((m + 1 : Nat) : Int)) ↔
            (lo ≤ k ∧ k < lo + (m : Int)) := by omega
        rw [if_congr g1 rfl rfl, if_congr g2 rfl rfl]
        cases hc : QHash.value c (lo + m) with
        | some v => dsimp only; rw [if_neg ka, if_neg kb]
        | none => rfl

theorem value_rekeyUpLoop (ad hi : Int) (c : QHash) (had : 0 < ad)
    (hwin : ∀ k, hi < k → k ≤ hi + ad → QHash.value c k = none) (n : Nat) (k : Int) :
    QHash.value (forDown (rekeyUp ad) n hi c) k =
      if hi - n + ad < k ∧ k ≤ hi + ad then QHash.value c (k - ad)
      else if hi - n < k ∧ k ≤ hi then none else QHash.value c k := by
  induction n generalizing k with
  | zero =>
    have h1 : ¬ (hi - ((0 : Nat) : Int) + ad < k ∧ k ≤ hi + ad) := by omega
    have h2 : ¬ (hi - ((0 : Nat) : Int) < k ∧ k ≤ hi) := by omega
    rw [if_neg h1, if_neg h2]; rfl
  | succ m ih =>
    rw [forDown_succ, value_rekeyUp]
    have hv : QHash.value (forDown (rekeyUp ad) m hi c) (hi - m) = QHash.value c (hi - m) := by
      rw [ih]
      have h1 : ¬ (hi - (m : Int) + ad < hi - m ∧ hi - (m : Int) ≤ hi + ad) := by omega
      have h2 : ¬ (hi - (m : Int) < hi - m ∧ hi - (m : Int) ≤ hi) := by omega
      rw [if_neg h1, if_neg h2]
    rw [hv, ih]
    by_cases ka : k = hi - m + ad
    · have g1 : hi - ((m + 1 : Nat) : Int) + ad < k ∧ k ≤ hi + ad := by omega
      have g2 : ¬ (hi - (m : Int) + ad < k ∧ k ≤ hi + ad) := by omega
      have g3 : k - ad = hi - m := by omega
      rw [if_pos g1, if_neg g2, g3]
      cases hc : QHash.value c (hi - m) with
      | some v => dsimp only; rw [if_pos ka]
      | none =>
        dsimp only
        by_cases g4 : hi - (m : Int) < k ∧ k ≤ hi
        · rw [if_pos g4]
        · rw [if_neg g4]
          exact hwin k (by omega) (by omega)
    · by_cases kb : k = hi - m
      · have g1 : ¬ (hi - ((m + 1 : Nat) : Int) + ad < k ∧ k ≤ hi + ad) := by omega
        have g2 : ¬ (hi - (m : Int) + ad < k ∧ k ≤ hi + ad) := by omega
        have g3 : hi - ((m + 1 : Nat) : Int) < k ∧ k ≤ hi := by omega
        have g4 : ¬ (hi - (m : Int) < k ∧ k ≤ hi) := by omega
        rw [if_neg g1, if_pos g3, if_neg g2, if_neg g4]
        cases hc : QHash.value c (hi - m) with
        | some v => dsimp only; rw [if_neg ka, if_pos kb]
        | none => dsimp only; rw [kb, hc]
      · have g1 : (hi - ((m + 1 : Nat) : Int) + ad < k ∧ k ≤ hi + ad) ↔
            (hi - (m : Int) + ad < k ∧ k ≤ hi + ad) := by omega
        have g2 : (hi - ((m + 1 : Nat) : Int) < k ∧ k ≤ hi) ↔
            (hi - (m : Int) < k ∧ k ≤ hi) := by omega
        rw [if_congr g1 rfl rfl, if_congr g2 rfl rfl]
        cases hc : QHash.value c (hi - m) with
        | some v => dsimp only; rw [if_neg ka, if_neg kb]
        | none => rfl


namespace QMenuModel

@[simp] theorem emit_m_cache (s : QMenuModel) (x : Signal) : (s.emit x).m_cache = s.m_cache := rfl
@[simp] theorem emit_m_rowCount (s : QMenuModel) (x : Signal) :
    (s.emit x).m_rowCount = s.m_rowCount := rfl
@[simp] theorem emit_m_menuModel (s : QMenuModel) (x : Signal) :
    (s.emit x).m_menuModel = s.m_menuModel := rfl
@[simp] theorem emit_ident (s : QMenuModel) (x : Signal) : (s.emit x).ident = s.ident := rfl
@[simp] theorem emit_connected (s : QMenuModel) (x : Signal) :
    (s.emit x).countChangedConnected = s.countChangedConnected := rfl
@[simp] theorem emit_emitted (s : QMenuModel) (x : Signal) :
    (s.emit x).emitted = s.emitted ++ [x] := rfl

@[simp] theorem emitCountChanged_m_cache (s : QMenuModel) :
    s.emitCountChanged.m_cache = s.m_cache := by
  unfold emitCountChanged; split <;> rfl
@[simp] theorem emitCountChanged_m_rowCount (s : QMenuModel) :
    s.emitCountChanged.m_rowCount = s.m_rowCount := by
  unfold emitCountChanged; split <;> rfl
@[simp] theorem emitCountChanged_m_menuModel (s : QMenuModel) :
    s.emitCountChanged.m_menuModel = s.m_menuModel := by
  unfold emitCountChanged; split <;> rfl
@[simp] theorem emitCountChanged_ident (s : QMenuModel) :
    s.emitCountChanged.ident = s.ident := by
  unfold emitCountChanged; split <;> rfl
@[simp] theorem emitCountChanged_connected (s : QMenuModel) :
    s.emitCountChanged.countChangedConnected = s.countChangedConnected := by
  unfold emitCountChanged; split <;> rfl
theorem emitCountChanged_emitted (s : QMenuModel) :
    s.emitCountChanged.emitted =
      s.emitted ++ (if s.countChangedConnected then [Signal.countChanged] else []) := by
  unfold emitCountChanged; split <;> simp [*]

/-- The cache left by `onItemsChanged`, as the composition of its three loops. -/
theorem onItemsChanged_m_cache (w : World) (model : Nat) (p rm ad : Int) (self : QMenuModel) :
    (onItemsChanged w model p rm ad self).2.m_cache =
      (if ad > 0 then
        forDown (rekeyUp ad)
          ((g_menu_model_get_n_items w model + rm - ad - rm - 1) - p + 1).toNat
          (g_menu_model_get_n_items w model + rm - ad - rm - 1)
       else id)
      (if rm > 0 then
        forUp (rekeyDown rm) (g_menu_model_get_n_items w model + rm - ad - (p + rm)).toNat
          (p + rm) (forUp evictStep ((p + rm) - p).toNat p (w, self.m_cache)).2
       else self.m_cache) := by
  unfold onItemsChanged
  by_cases hrm : rm > 0 <;> by_cases had : ad > 0 <;>
    simp [hrm, had, beginRemoveRows, endRemoveRows, beginInsertRows, endInsertRows]

/-- The mirrored row count left by `onItemsChanged`. -/
theorem onItemsChanged_m_rowCount (w : World) (model : Nat) (p rm ad : Int)
    (self : QMenuModel) :
    (onItemsChanged w model p rm ad self).2.m_rowCount =
      if ad > 0 then
        wrap32 ((if rm > 0 then wrap32 (self.m_rowCount - rm) else self.m_rowCount) + ad)
      else if rm > 0 then wrap32 (self.m_rowCount - rm) else self.m_rowCount := by
  unfold onItemsChanged
  by_cases hrm : rm > 0 <;> by_cases had : ad > 0 <;>
    simp [hrm, had, beginRemoveRows, endRemoveRows, beginInsertRows, endInsertRows]

/-- The signals emitted by `onItemsChanged`. -/
theorem onItemsChanged_emitted (w : World) (model : Nat) (p rm ad : Int)
    (self : QMenuModel) :
    (onItemsChanged w model p rm ad self).2.emitted =
      self.emitted ++
        ((if rm > 0 then
            [Signal.rowsAboutToBeRemoved p (p + rm - 1), Signal.rowsRemoved p (p + rm - 1)] ++
              (if self.countChangedConnected then [Signal.countChanged] else [])
          else []) ++
         (if ad > 0 then
            [Signal.rowsAboutToBeInserted p (p + ad - 1), Signal.rowsInserted p (p + ad - 1)] ++
              (if self.countChangedConnected then [Signal.countChanged] else [])
          else [])) := by
  unfold onItemsChanged
  by_cases hrm : rm > 0 <;> by_cases had : ad > 0 <;>
    simp [hrm, had, beginRemoveRows, endRemoveRows, beginInsertRows, endInsertRows,
      emitCountChanged_emitted]

/-- Re-keying by `onItemsChanged`, as a function of the row. -/
theorem onItemsChanged_value (w : World) (model : Nat) (p rm ad cb : Int) (self : QMenuModel)
    (hrm : 0 ≤ rm) (had : 0 ≤ ad) (hle : p + rm ≤ cb)
    (hcount : g_menu_model_get_n_items w model = cb - rm + ad)
    (hkeys : ∀ k child, QHash.value self.m_cache k = some child → 0 ≤ k ∧ k < cb) (k : Int) :
    QHash.value (onItemsChanged w model p rm ad self).2.m_cache k =
      if k < p then QHash.value self.m_cache k
      else if k < p + ad then none
      else QHash.value self.m_cache (k - ad + rm) := by
  have hnone : ∀ j, cb ≤ j → QHash.value self.m_cache j = none := by
    intro j hj
    cases hv : QHash.value self.m_cache j with
    | none => rfl
    | some c => have := hkeys j c hv; omega
  rw [onItemsChanged_m_cache, hcount]
  -- the cache after the removal phase
  have h2 : ∀ j, QHash.value
      (if rm > 0 then
        forUp (rekeyDown rm) (cb - rm + ad + rm - ad - (p + rm)).toNat
          (p + rm) (forUp evictStep ((p + rm) - p).toNat p (w, self.m_cache)).2
       else self.m_cache) j =
      if j < p then QHash.value self.m_cache j else QHash.value self.m_cache (j + rm) := by
    intro j
    by_cases h0 : rm > 0
    · rw [if_pos h0, value_rekeyDownLoop rm (p + rm) _ h0]
      · simp only [value_evictLoop]
        have e1 : (((cb - rm + ad + rm - ad - (p + rm)).toNat : Nat) : Int) = cb - rm - p := by
          omega
        have e2 : ((((p + rm) - p).toNat : Nat) : Int) = rm := by omega
        rw [e1, e2]
        by_cases c1 : j < p
        · have a1 : ¬ (p + rm - rm ≤ j ∧ j < p + rm - rm + (cb - rm - p)) := by omega
          have a2 : ¬ (p + rm ≤ j ∧ j < p + rm + (cb - rm - p)) := by omega
          have a3 : ¬ (p ≤ j ∧ j < p + rm) := by omega
          rw [if_neg a1, if_neg a2, if_neg a3, if_pos c1]
        · rw [if_neg c1]
          by_cases c2 : j < cb - rm
          · have a1 : p + rm - rm ≤ j ∧ j < p + rm - rm + (cb - rm - p) := by omega
            have a3 : ¬ (p ≤ j + rm ∧ j + rm < p + rm) := by omega
            rw [if_pos a1, if_neg a3]
          · have a1 : ¬ (p + rm - rm ≤ j ∧ j < p + rm - rm + (cb - rm - p)) := by omega
            rw [if_neg a1, hnone (j + rm) (by omega)]
            by_cases c3 : p + rm ≤ j ∧ j < p + rm + (cb - rm - p)
            · rw [if_pos c3]
            · rw [if_neg c3]
              by_cases c4 : p ≤ j ∧ j < p + rm
              · rw [if_pos c4]
              · rw [if_neg c4]; exact hnone j (by omega)
      · intro j hj1 hj2
        rw [value_evictLoop]
        have e2 : ((((p + rm) - p).toNat : Nat) : Int) = rm := by omega
        rw [e2]
        have a3 : p ≤ j ∧ j < p + rm := by omega
        rw [if_pos a3]
    · rw [if_neg h0]
      have : rm = 0 := by omega
      subst this
      simp
  by_cases h1 : ad > 0
  · rw [if_pos h1, value_rekeyUpLoop ad _ _ h1]
    · simp only [h2]
      have e1 : (((cb - rm + ad + rm - ad - rm - 1 - p + 1).toNat : Nat) : Int) = cb - rm - p := by
        omega
      rw [e1]
      by_cases c1 : k < p
      · have a1 : ¬ (cb - rm + ad + rm - ad - rm - 1 - (cb - rm - p) + ad < k ∧
            k ≤ cb - rm + ad + rm - ad - rm - 1 + ad) := by omega
        have a2 : ¬ (cb - rm + ad + rm - ad - rm - 1 - (cb - rm - p) < k ∧
            k ≤ cb - rm + ad + rm - ad - rm - 1) := by omega
        simp only [if_neg a1, if_neg a2, if_pos c1]
      · by_cases c2 : k < p + ad
        · have a1 : ¬ (cb - rm + ad + rm - ad - rm - 1 - (cb - rm - p) + ad < k ∧
              k ≤ cb - rm + ad + rm - ad - rm - 1 + ad) := by omega
          simp only [if_neg a1, if_pos c2, if_neg c1]
          by_cases a2 : cb - rm + ad + rm - ad - rm - 1 - (cb - rm - p) < k ∧
              k ≤ cb - rm + ad + rm - ad - rm - 1
          · simp only [if_pos a2]
          · simp only [if_neg a2]
            exact hnone _ (by omega)
        · by_cases a1 : cb - rm + ad + rm - ad - rm - 1 - (cb - rm - p) + ad < k ∧
              k ≤ cb - rm + ad + rm - ad - rm - 1 + ad
          · have a3 : ¬ (k - ad < p) := by omega
            simp only [if_pos a1, if_neg a3, if_neg c1, if_neg c2]
          · have a2 : ¬ (cb - rm + ad + rm - ad - rm - 1 - (cb - rm - p) < k ∧
                k ≤ cb - rm + ad + rm - ad - rm - 1) := by omega
            simp only [if_neg a1, if_neg a2, if_neg c1, if_neg c2]
            rw [hnone _ (show cb ≤ k + rm by omega), hnone _ (show cb ≤ k - ad + rm by omega)]
    · intro j hj1 hj2
      rw [h2]
      have a3 : ¬ (j < p) := by omega
      rw [if_neg a3]
      exact hnone _ (by omega)
  · rw [if_neg h1]
    have : ad = 0 := by omega
    subst this
    simp only [id, h2]
    by_cases c1 : k < p
    · rw [if_pos c1, if_pos c1]
    · have c2 : ¬ (k < p + 0) := by omega
      rw [if_neg c1, if_neg c1, if_neg c2]
      congr 1
      omega


/-- Attaching the source that is already attached changes nothing. -/
theorem setMenuModel_same (w : World) (self : QMenuModel) (other : Option Nat)
    (h : self.m_menuModel = other) : setMenuModel w self other = (w, self) := by
  cases self with
  | mk ident menuModel signalChangedId rowCount cache connected emitted =>
    simp only at h
    simp [setMenuModel, h]

/-- Method `setMenuModel` as written in the source: the guard, `beginResetModel`, `clearModel()`,
the binding to the new source and `endResetModel`. -/
theorem setMenuModel_unfold (w : World) (self : QMenuModel) (other : Option Nat) :
    setMenuModel w self other =
      if self.m_menuModel = other then (w, self)
      else
        let r := clearModel w self.beginResetModel false
        let b := bindSource r.1 r.2 other
        (b.1, b.2.endResetModel) := by
  cases self with
  | mk ident menuModel signalChangedId rowCount cache connected emitted =>
    by_cases h : menuModel = other
    · simp [setMenuModel, h]
    · cases menuModel <;>
        simp [setMenuModel, h, clearModel, releaseSource, beginResetModel, emit]


@[simp] theorem releaseSource_gmodels (w : World) (s : QMenuModel) :
    (releaseSource w s).1.gmodels = w.gmodels := by
  unfold releaseSource; split <;> rfl
@[simp] theorem releaseSource_deleteLater (w : World) (s : QMenuModel) :
    (releaseSource w s).1.deleteLater = w.deleteLater := by
  unfold releaseSource; split <;> rfl
@[simp] theorem releaseSource_m_cache (w : World) (s : QMenuModel) :
    (releaseSource w s).2.m_cache = s.m_cache := by
  unfold releaseSource; split <;> rfl
@[simp] theorem releaseSource_emitted (w : World) (s : QMenuModel) :
    (releaseSource w s).2.emitted = s.emitted := by
  unfold releaseSource; split <;> rfl
@[simp] theorem releaseSource_ident (w : World) (s : QMenuModel) :
    (releaseSource w s).2.ident = s.ident := by
  unfold releaseSource; split <;> rfl
@[simp] theorem releaseSource_connected (w : World) (s : QMenuModel) :
    (releaseSource w s).2.countChangedConnected = s.countChangedConnected := by
  unfold releaseSource; split <;> rfl
@[simp] theorem releaseSource_m_menuModel (w : World) (s : QMenuModel) :
    (releaseSource w s).2.m_menuModel = none := by
  unfold releaseSource; split
  · rfl
  · next h => exact h

@[simp] theorem bindSource_gmodels (w : World) (s : QMenuModel) (o : Option Nat) :
    (bindSource w s o).1.gmodels = w.gmodels := by
  unfold bindSource; split <;> rfl
@[simp] theorem bindSource_deleteLater (w : World) (s : QMenuModel) (o : Option Nat) :
    (bindSource w s o).1.deleteLater = w.deleteLater := by
  unfold bindSource; split <;> rfl
@[simp] theorem bindSource_m_cache (w : World) (s : QMenuModel) (o : Option Nat) :
    (bindSource w s o).2.m_cache = s.m_cache := by
  unfold bindSource; split <;> rfl
@[simp] theorem bindSource_emitted (w : World) (s : QMenuModel) (o : Option Nat) :
    (bindSource w s o).2.emitted = s.emitted := by
  unfold bindSource; split <;> rfl
@[simp] theorem bindSource_ident (w : World) (s : QMenuModel) (o : Option Nat) :
    (bindSource w s o).2.ident = s.ident := by
  unfold bindSource; split <;> rfl
@[simp] theorem bindSource_connected (w : World) (s : QMenuModel) (o : Option Nat) :
    (bindSource w s o).2.countChangedConnected = s.countChangedConnected := by
  unfold bindSource; split <;> rfl
@[simp] theorem bindSource_m_menuModel (w : World) (s : QMenuModel) (o : Option Nat) :
    (bindSource w s o).2.m_menuModel = o := by
  unfold bindSource; split <;> rfl
theorem bindSource_m_rowCount (w : World) (s : QMenuModel) (o : Option Nat) :
    (bindSource w s o).2.m_rowCount =
      match o with
      | some m => g_menu_model_get_n_items w m
      | none => 0 := by
  unfold bindSource; split <;> rfl

theorem g_menu_model_get_n_items_congr (w1 w2 : World) (h : w1.gmodels = w2.gmodels)
    (m : Nat) : g_menu_model_get_n_items w1 m = g_menu_model_get_n_items w2 m := by
  simp [g_menu_model_get_n_items, World.items, h]

mutual
/-- Method `setMenuModel` leaves the sources alone and only appends to the deletion queue. -/
theorem setMenuModel_world (w : World) (self : QMenuModel) (other : Option Nat) :
    (setMenuModel w self other).1.gmodels = w.gmodels ∧
      ∃ l, (setMenuModel w self other).1.deleteLater = w.deleteLater ++ l :=
  match self with
  | ⟨ident, menuModel, signalChangedId, rowCount, cache, connected, emitted⟩ => by
    have ih := clearChildren_world false
      (releaseSource w (beginResetModel
        ⟨ident, menuModel, signalChangedId, rowCount, cache, connected, emitted⟩)).1 cache
    rw [setMenuModel_unfold]
    by_cases h : menuModel = other
    · rw [if_pos h]
      exact ⟨rfl, [], by simp⟩
    · rw [if_neg h]
      simp only [clearModel, bindSource_gmodels, bindSource_deleteLater,
        releaseSource_m_cache, beginResetModel, emit_m_cache]
      simp only [beginResetModel, releaseSource_gmodels, releaseSource_deleteLater] at ih
      exact ih
/-- The loop of `clearModel` leaves the sources alone and only appends to the deletion
queue. -/
theorem clearChildren_world (d : Bool) (w : World) (cache : List (Int × QMenuModel)) :
    (clearChildren d w cache).gmodels = w.gmodels ∧
      ∃ l, (clearChildren d w cache).deleteLater = w.deleteLater ++ l :=
  match cache with
  | [] => by
    rw [clearChildren]
    exact ⟨rfl, [], by simp⟩
  | (k, child) :: rest => by
    have ih1 := setMenuModel_world w child none
    cases d with
    | true =>
      have ih2 := clearChildren_world true
        { w with deleteLater := w.deleteLater ++ [child] } rest
      simp only [clearChildren, if_true]
      obtain ⟨g2, l2, e2⟩ := ih2
      exact ⟨g2, [child] ++ l2, by rw [e2]; simp⟩
    | false =>
      have ih2 := clearChildren_world false
        { (setMenuModel w child none).1 with
          deleteLater := (setMenuModel w child none).1.deleteLater ++
            [(setMenuModel w child none).2] } rest
      simp only [clearChildren, Bool.false_eq_true, if_false]
      obtain ⟨g1, l1, e1⟩ := ih1
      obtain ⟨g2, l2, e2⟩ := ih2
      refine ⟨g2.trans g1, l1 ++ [(setMenuModel w child none).2] ++ l2, ?_⟩
      rw [e2]
      simp only [e1]
      simp
end


/-- C1. For a valid batch `(p, rm, ad)` (non-negative counts, `p + rm ≤ countBefore`, the
source holding `countBefore - rm + ad` items when the handler runs) applied by
`onItemsChanged` to a model whose cached rows lie in `[0, countBefore)` and are distinct
objects: a child cached at a row `r < p` is still cached at `r`; a child cached at a row of
`[p, p + rm)` is no longer cached at any row; a child cached at a row `r ≥ p + rm` is cached
at `r - rm + ad`; and the cache holds nothing else. -/
theorem onItemsChanged_rekeys (w : World) (model : Nat) (p rm ad countBefore : Int)
    (self : QMenuModel)
    (hp : 0 ≤ p) (hrm : 0 ≤ rm) (had : 0 ≤ ad) (hle : p + rm ≤ countBefore)
    (hcount : g_menu_model_get_n_items w model = countBefore - rm + ad)
    (hkeys : ∀ k child, QHash.value self.m_cache k = some child → 0 ≤ k ∧ k < countBefore)
    (hinj : ∀ k1 k2 c1 c2, QHash.value self.m_cache k1 = some c1 →
      QHash.value self.m_cache k2 = some c2 → c1.ident = c2.ident → k1 = k2) :
    (∀ r child, r < p → QHash.value self.m_cache r = some child →
      QHash.value (onItemsChanged w model p rm ad self).2.m_cache r = some child) ∧
    (∀ r child, p ≤ r → r < p + rm → QHash.value self.m_cache r = some child →
      ∀ k other, QHash.value (onItemsChanged w model p rm ad self).2.m_cache k = some other →
        other.ident ≠ child.ident) ∧
    (∀ r child, p + rm ≤ r → QHash.value self.m_cache r = some child →
      QHash.value (onItemsChanged w model p rm ad self).2.m_cache (r - rm + ad) = some child) ∧
    (∀ k other, QHash.value (onItemsChanged w model p rm ad self).2.m_cache k = some other →
      (k < p ∧ QHash.value self.m_cache k = some other) ∨
      (p + ad ≤ k ∧ p + rm ≤ k - ad + rm ∧
        QHash.value self.m_cache (k - ad + rm) = some other)) := by
  have hval := onItemsChanged_value w model p rm ad countBefore self hrm had hle hcount hkeys
  have hp0 : 0 ≤ p := hp
  have hfrom : ∀ k other,
      QHash.value (onItemsChanged w model p rm ad self).2.m_cache k = some other →
      (k < p ∧ QHash.value self.m_cache k = some other) ∨
      (p + ad ≤ k ∧ p + rm ≤ k - ad + rm ∧
        QHash.value self.m_cache (k - ad + rm) = some other) := by
    intro k other hk
    rw [hval] at hk
    by_cases c1 : k < p
    · rw [if_pos c1] at hk
      exact Or.inl ⟨c1, hk⟩
    · rw [if_neg c1] at hk
      by_cases c2 : k < p + ad
      · rw [if_pos c2] at hk
        cases hk
      · rw [if_neg c2] at hk
        exact Or.inr ⟨by omega, by omega, hk⟩
  refine ⟨?_, ?_, ?_, hfrom⟩
  · intro r child hr hc
    rw [hval, if_pos hr]
    exact hc
  · intro r child hr1 hr2 hc k other hk hid
    rcases hfrom k other hk with ⟨h1, h2⟩ | ⟨h1, h2, h3⟩
    · have := hinj k r other child h2 hc hid
      omega
    · have := hinj (k - ad + rm) r other child h3 hc hid
      omega
  · intro r child hr hc
    rw [hval]
    have c1 : ¬ (r - rm + ad < p) := by omega
    have c2 : ¬ (r - rm + ad < p + ad) := by omega
    rw [if_neg c1, if_neg c2]
    have : r - rm + ad - ad + rm = r := by omega
    rw [this]
    exact hc



theorem rowAndReset_append (a b : List Signal) :
    rowAndReset (a ++ b) = rowAndReset a ++ rowAndReset b := by
  simp [rowAndReset]

theorem rowAndReset_countChanged_if (c : Bool) :
    rowAndReset (if c then [Signal.countChanged] else []) = [] := by
  cases c <;> simp [rowAndReset, Signal.isRowOrReset]

/-- C2 fails as stated: in scenario A, batch `(2, 1, 3)`, the notifications emitted are not
the removal pair followed by the insertion pair: a `countChanged` follows each pair. -/
theorem scenarioA_emits_six_signals :
    (deliver 10 scenarioA scenarioABatch).2.emitted.drop scenarioA.2.emitted.length =
        [Signal.rowsAboutToBeRemoved 2 2, Signal.rowsRemoved 2 2, Signal.countChanged,
         Signal.rowsAboutToBeInserted 2 4, Signal.rowsInserted 2 4, Signal.countChanged] ∧
      (deliver 10 scenarioA scenarioABatch).2.emitted.drop scenarioA.2.emitted.length ≠
        [Signal.rowsAboutToBeRemoved 2 2, Signal.rowsRemoved 2 2,
         Signal.rowsAboutToBeInserted 2 4, Signal.rowsInserted 2 4] := by
  decide

/-- C2, as the code has it. The notifications emitted by `onItemsChanged` for a batch
`(p, rm, ad)` are exactly, in this order: if `rm > 0`, about-to-remove rows
`[p, p + rm - 1]`, rows-removed and, when the constructor has wired it, the `countChanged`
derived from rows-removed; then, if `ad > 0`, about-to-insert rows `[p, p + ad - 1]`,
rows-inserted and the `countChanged` derived from rows-inserted. Without the `countChanged`
they are the removal pair followed by the insertion pair. On a model of count 5 the batch
`(2, 1, 3)` emits remove `[2, 2]`, `countChanged`, insert `[2, 4]`, `countChanged`, and
the count becomes 7. -/
theorem onItemsChanged_signals (w : World) (model : Nat) (p rm ad : Int)
    (self : QMenuModel) :
    (onItemsChanged w model p rm ad self).2.emitted =
        self.emitted ++
          ((if rm > 0 then
              [Signal.rowsAboutToBeRemoved p (p + rm - 1), Signal.rowsRemoved p (p + rm - 1)] ++
                (if self.countChangedConnected then [Signal.countChanged] else [])
            else []) ++
           (if ad > 0 then
              [Signal.rowsAboutToBeInserted p (p + ad - 1),
               Signal.rowsInserted p (p + ad - 1)] ++
                (if self.countChangedConnected then [Signal.countChanged] else [])
            else [])) ∧
      rowAndReset ((onItemsChanged w model p rm ad self).2.emitted.drop self.emitted.length) =
        (if rm > 0 then
          [Signal.rowsAboutToBeRemoved p (p + rm - 1), Signal.rowsRemoved p (p + rm - 1)]
         else []) ++
        (if ad > 0 then
          [Signal.rowsAboutToBeInserted p (p + ad - 1), Signal.rowsInserted p (p + ad - 1)]
         else []) ∧
      (deliver 10 scenarioA scenarioABatch).2.emitted.drop scenarioA.2.emitted.length =
        [Signal.rowsAboutToBeRemoved 2 2, Signal.rowsRemoved 2 2, Signal.countChanged,
         Signal.rowsAboutToBeInserted 2 4, Signal.rowsInserted 2 4, Signal.countChanged] ∧
      scenarioA.2.count = 5 ∧
      (deliver 10 scenarioA scenarioABatch).2.count = 7 := by
  refine ⟨onItemsChanged_emitted w model p rm ad self, ?_, by decide, by decide, by decide⟩
  rw [onItemsChanged_emitted, List.drop_left]
  by_cases hrm : rm > 0 <;> by_cases had : ad > 0 <;>
    simp only [hrm, had, if_true, if_false, rowAndReset_append, rowAndReset_countChanged_if,
      List.append_nil, List.nil_append] <;>
    simp [rowAndReset, Signal.isRowOrReset]

/-- C10. A notification with `removed = 0` and `added = 0` changes nothing: no signal is
emitted, and the row count, the cache and the world stay as they were. -/
theorem onItemsChanged_zero (w : World) (model : Nat) (position : Int) (self : QMenuModel) :
    onItemsChanged w model position 0 0 self = (w, self) := by
  simp [onItemsChanged]

/-- C5. For a row outside `[0, rowCount)` (every row when no source is attached or the
source is empty), `data` returns the invalid `QVariant` for every role and changes
nothing. -/
theorem data_out_of_range (toQVariant : GVariant → QVariant) (w : World) (self : QMenuModel)
    (row role : Int) (h : row < 0 ∨ rowCount w self ≤ row) :
    data toQVariant w self row role = (w, self, QVariant.invalid) := by
  unfold data
  have : ¬ (rowCount w self > 0 ∧ row ≥ 0 ∧ row < rowCount w self) := by omega
  simp only [this, if_false]


/-- The source attached after `setMenuModel(other)` is `other`. -/
theorem setMenuModel_m_menuModel (w : World) (self : QMenuModel) (other : Option Nat) :
    (setMenuModel w self other).2.m_menuModel = other := by
  rw [setMenuModel_unfold]
  by_cases h : self.m_menuModel = other
  · rw [if_pos h]; exact h
  · rw [if_neg h]; simp [endResetModel]

/-- Method `setMenuModel` keeps the identity of the object. -/
theorem setMenuModel_ident (w : World) (self : QMenuModel) (other : Option Nat) :
    (setMenuModel w self other).2.ident = self.ident := by
  rw [setMenuModel_unfold]
  by_cases h : self.m_menuModel = other
  · rw [if_pos h]
  · rw [if_neg h]; simp [endResetModel, clearModel, beginResetModel]

/-- The signals emitted by a `setMenuModel` that changes the source. -/
theorem setMenuModel_emitted (w : World) (self : QMenuModel) (other : Option Nat)
    (h : self.m_menuModel ≠ other) :
    (setMenuModel w self other).2.emitted =
      self.emitted ++ ([Signal.modelAboutToBeReset, Signal.modelReset] ++
        (if self.countChangedConnected then [Signal.countChanged] else [])) := by
  rw [setMenuModel_unfold, if_neg h]
  simp [endResetModel, clearModel, beginResetModel, emitCountChanged_emitted]

/-- The cache is empty after a `setMenuModel` that changes the source. -/
theorem setMenuModel_m_cache (w : World) (self : QMenuModel) (other : Option Nat)
    (h : self.m_menuModel ≠ other) :
    (setMenuModel w self other).2.m_cache = [] := by
  rw [setMenuModel_unfold, if_neg h]
  simp [endResetModel, clearModel]

/-- The mirrored count after a `setMenuModel` that changes the source. -/
theorem setMenuModel_m_rowCount (w : World) (self : QMenuModel) (other : Option Nat)
    (h : self.m_menuModel ≠ other) :
    (setMenuModel w self other).2.m_rowCount =
      match other with
      | some m => g_menu_model_get_n_items w m
      | none => 0 := by
  rw [setMenuModel_unfold, if_neg h]
  simp only [endResetModel, emitCountChanged_m_rowCount, emit_m_rowCount, bindSource_m_rowCount]
  cases other with
  | none => rfl
  | some m =>
    simp only [clearModel]
    apply g_menu_model_get_n_items_congr
    rw [(clearChildren_world false _ _).1, releaseSource_gmodels]

/-- The deletion queue after a `setMenuModel` that changes the source. -/
theorem setMenuModel_deleteLater (w : World) (self : QMenuModel) (other : Option Nat)
    (h : self.m_menuModel ≠ other) :
    (setMenuModel w self other).1.deleteLater =
      (clearChildren false (releaseSource w self.beginResetModel).1 self.m_cache).deleteLater := by
  rw [setMenuModel_unfold, if_neg h]
  simp [clearModel, beginResetModel]

/-- The loop of `clearModel()` detaches every cached child and queues it for deletion. -/
theorem clearChildren_detaches (cache : List (Int × QMenuModel)) (w : World) :
    ∃ l, (clearChildren false w cache).deleteLater = w.deleteLater ++ l ∧
      ∀ e ∈ cache, ∃ c ∈ l, c.ident = e.2.ident ∧ c.m_menuModel = none := by
  induction cache generalizing w with
  | nil => exact ⟨[], by simp [clearChildren], by simp⟩
  | cons e rest ih =>
    obtain ⟨k, child⟩ := e
    obtain ⟨_, l1, e1⟩ := setMenuModel_world w child none
    obtain ⟨l2, e2, h2⟩ := ih
      { (setMenuModel w child none).1 with
        deleteLater := (setMenuModel w child none).1.deleteLater ++
          [(setMenuModel w child none).2] }
    refine ⟨l1 ++ [(setMenuModel w child none).2] ++ l2, ?_, ?_⟩
    · simp only [clearChildren, Bool.false_eq_true, if_false]
      rw [e2]
      simp only [e1]
      simp
    · intro e he
      rcases List.mem_cons.1 he with rfl | hr
      · refine ⟨(setMenuModel w child none).2, by simp, ?_, ?_⟩
        · exact setMenuModel_ident w child none
        · exact setMenuModel_m_menuModel w child none
      · obtain ⟨c, hc, hc2⟩ := h2 e hr
        exact ⟨c, by simp [hc], hc2⟩

/-- C7 fails as stated: detaching the constructed model of scenario C emits three signals
on the model, reset-begin, reset-end and the `countChanged` wired to the reset by the
constructor, not exactly the reset pair. -/
theorem scenarioC_detach_emits_three :
    scenarioC.2.m_menuModel ≠ none ∧
      (setMenuModel scenarioC.1 scenarioC.2 none).2.emitted.drop scenarioC.2.emitted.length =
        [Signal.modelAboutToBeReset, Signal.modelReset, Signal.countChanged] ∧
      (setMenuModel scenarioC.1 scenarioC.2 none).2.emitted.drop scenarioC.2.emitted.length ≠
        [Signal.modelAboutToBeReset, Signal.modelReset] := by
  decide

/-- C7, as the code has it. A `setMenuModel(s)` with `s` different from the attached source
emits on the model exactly reset-begin, reset-end and then, when the constructor has wired
it, the `countChanged` derived from the reset, and no row notification; afterwards the
attached source is `s`, the mirrored count is the item count of `s` (0 for `NULL`), the
cache is empty, and every child cached before has been detached and appended to the
deletion queue. -/
theorem setMenuModel_resets_then_countChanged (w : World) (self : QMenuModel)
    (s : Option Nat) (h : self.m_menuModel ≠ s) :
    (setMenuModel w self s).2.emitted =
        self.emitted ++ ([Signal.modelAboutToBeReset, Signal.modelReset] ++
          (if self.countChangedConnected then [Signal.countChanged] else [])) ∧
      (setMenuModel w self s).2.menuModel = s ∧
      (setMenuModel w self s).2.count =
        (match s with
         | some m => g_menu_model_get_n_items (setMenuModel w self s).1 m
         | none => 0) ∧
      (setMenuModel w self s).2.cache = [] ∧
      ∃ l, (setMenuModel w self s).1.deleteLater = w.deleteLater ++ l ∧
        ∀ e ∈ self.m_cache, ∃ c ∈ l, c.ident = e.2.ident ∧ c.m_menuModel = none := by
  refine ⟨setMenuModel_emitted w self s h, setMenuModel_m_menuModel w self s, ?_,
    setMenuModel_m_cache w self s h, ?_⟩
  · show (setMenuModel w self s).2.m_rowCount = _
    rw [setMenuModel_m_rowCount w self s h]
    cases s with
    | none => rfl
    | some m =>
      exact g_menu_model_get_n_items_congr _ _ (setMenuModel_world w self (some m)).1.symm m
  · rw [setMenuModel_deleteLater w self s h]
    obtain ⟨l, e, hl⟩ := clearChildren_detaches self.m_cache
      (releaseSource w self.beginResetModel).1
    exact ⟨l, by rw [e, releaseSource_deleteLater], hl⟩

/-- C6, as the code has it. The second of two successive `setMenuModel(s)` calls is a no-op:
it returns the state left by the first call, so it emits nothing and leaves the source, the
row count and the cache as they are. The two calls together emit one reset pair when `s`
differs from the source attached before, and none when `s` is already attached. -/
theorem setMenuModel_twice (w : World) (self : QMenuModel) (s : Option Nat) :
    setMenuModel (setMenuModel w self s).1 (setMenuModel w self s).2 s =
        setMenuModel w self s ∧
      rowAndReset ((setMenuModel (setMenuModel w self s).1 (setMenuModel w self s).2 s).2.emitted.drop
          self.emitted.length) =
        if self.m_menuModel = s then [] else [Signal.modelAboutToBeReset, Signal.modelReset] := by
  have h2 := setMenuModel_same (setMenuModel w self s).1 (setMenuModel w self s).2 s
    (setMenuModel_m_menuModel w self s)
  refine ⟨h2, ?_⟩
  rw [h2]
  by_cases h : self.m_menuModel = s
  · rw [if_pos h, setMenuModel_same w self s h]
    simp [rowAndReset]
  · rw [if_neg h, setMenuModel_emitted w self s h, List.drop_left, rowAndReset_append,
      rowAndReset_countChanged_if]
    simp [rowAndReset, Signal.isRowOrReset]

/-- C6 fails as stated: on a model already attached to the source 10, two successive
`setMenuModel(10)` calls emit no reset pair at all. -/
theorem attached_twice_emits_nothing :
    scenarioA.2.menuModel = some 10 ∧
      (setMenuModel (setMenuModel scenarioA.1 scenarioA.2 (some 10)).1
          (setMenuModel scenarioA.1 scenarioA.2 (some 10)).2 (some 10)).2.emitted.drop
          scenarioA.2.emitted.length = [] := by
  decide


theorem evictStep_gmodels (i : Int) (s : World × QHash) :
    (evictStep i s).1.gmodels = s.1.gmodels := by
  unfold evictStep
  split
  · simp only [QHash.take]
    cases hv : QHash.value s.2 i with
    | none => rfl
    | some c => exact (setMenuModel_world s.1 c none).1
  · rfl

theorem evictLoop_gmodels (n : Nat) (p : Int) (s : World × QHash) :
    (forUp evictStep n p s).1.gmodels = s.1.gmodels := by
  induction n with
  | zero => rfl
  | succ m ih => rw [forUp_succ, evictStep_gmodels, ih]

/-- Handler `onItemsChanged` does not touch the sources. -/
theorem onItemsChanged_gmodels (w : World) (model : Nat) (p rm ad : Int) (self : QMenuModel) :
    (onItemsChanged w model p rm ad self).1.gmodels = w.gmodels := by
  unfold onItemsChanged
  by_cases hrm : rm > 0 <;> by_cases had : ad > 0 <;>
    simp [hrm, had, evictLoop_gmodels]

/-- Handler `onItemsChanged` does not change the attached source. -/
theorem onItemsChanged_m_menuModel (w : World) (model : Nat) (p rm ad : Int)
    (self : QMenuModel) :
    (onItemsChanged w model p rm ad self).2.m_menuModel = self.m_menuModel := by
  unfold onItemsChanged
  by_cases hrm : rm > 0 <;> by_cases had : ad > 0 <;>
    simp [hrm, had, beginRemoveRows, endRemoveRows, beginInsertRows, endInsertRows]

theorem g_menu_model_get_n_items_setItems (w : World) (model : Nat) (items : List GMenuItem) :
    g_menu_model_get_n_items (w.setItems model items) model = (items.length : Int) := by
  simp [g_menu_model_get_n_items, World.items, World.setItems, List.lookup]

theorem wrap32_of_range (x : Int) (h1 : -2147483648 ≤ x) (h2 : x < 2147483648) :
    wrap32 x = x := by
  unfold wrap32
  omega

theorem wrap32_range (x : Int) : -2147483648 ≤ wrap32 x ∧ wrap32 x < 2147483648 := by
  unfold wrap32
  omega

theorem wrap32_wrap32 (x : Int) : wrap32 (wrap32 x) = wrap32 x := by
  unfold wrap32
  omega

theorem wrap32_add_left (x y : Int) : wrap32 (wrap32 x + y) = wrap32 (x + y) := by
  unfold wrap32
  omega

/-- The count after one notification with non-negative counts. -/
theorem deliver_count (model : Nat) (s : World × QMenuModel) (n : ItemsChanged)
    (hrm : 0 ≤ n.removed) (had : 0 ≤ n.added) (h0 : wrap32 s.2.count = s.2.count) :
    (deliver model s n).2.count = wrap32 (s.2.count - n.removed + n.added) := by
  unfold deliver
  unfold count at h0 ⊢
  rw [onItemsChanged_m_rowCount]
  by_cases h1 : n.removed > 0 <;> by_cases h2 : n.added > 0
  · rw [if_pos h2, if_pos h1, wrap32_add_left]
  · have : n.added = 0 := by omega
    rw [if_neg h2, if_pos h1, this, add_zero]
  · have : n.removed = 0 := by omega
    rw [if_pos h2, if_neg h1, this, sub_zero]
  · have e1 : n.added = 0 := by omega
    have e2 : n.removed = 0 := by omega
    rw [if_neg h2, if_neg h1, e1, e2, sub_zero, add_zero, h0]

theorem deliver_rowCount (model : Nat) (s : World × QMenuModel) (n : ItemsChanged)
    (hsrc : s.2.m_menuModel = some model) :
    (deliver model s n).2.m_menuModel = some model ∧
      rowCount (deliver model s n).1 (deliver model s n).2 = (n.items.length : Int) := by
  have h1 : (deliver model s n).2.m_menuModel = some model := by
    unfold deliver
    rw [onItemsChanged_m_menuModel, hsrc]
  refine ⟨h1, ?_⟩
  unfold rowCount
  rw [h1]
  simp only
  unfold deliver
  rw [g_menu_model_get_n_items_congr _ _ (onItemsChanged_gmodels _ _ _ _ _ _) model,
    g_menu_model_get_n_items_setItems]

/-- The count after a sequence of notifications with non-negative counts. -/
theorem deliverAll_count (model : Nat) (ns : List ItemsChanged) (s : World × QMenuModel)
    (hnn : ∀ n ∈ ns, 0 ≤ n.removed ∧ 0 ≤ n.added) (h0 : wrap32 s.2.count = s.2.count) :
    (deliverAll model s ns).2.count = wrap32 (s.2.count + sumAdded ns - sumRemoved ns) := by
  induction ns generalizing s with
  | nil => simp [deliverAll, sumAdded, sumRemoved, h0]
  | cons n rest ih =>
    have hn := hnn n (List.mem_cons_self _ _)
    have hd := deliver_count model s n hn.1 hn.2 h0
    have hstep : deliverAll model s (n :: rest) = deliverAll model (deliver model s n) rest := by
      simp [deliverAll]
    rw [hstep, ih (deliver model s n) (fun x hx => hnn x (List.mem_cons_of_mem _ hx))
      (by rw [hd, wrap32_wrap32]), hd]
    simp only [sumAdded, sumRemoved, List.map_cons, List.sum_cons]
    generalize (List.map (fun n => n.added) rest).sum = a
    generalize (List.map (fun n => n.removed) rest).sum = r
    unfold wrap32
    omega

/-- For a consistent sequence on sources that fit an `int`, the count mirrors the source. -/
theorem deliverAll_mirror (model : Nat) (ns : List ItemsChanged) (s : World × QMenuModel)
    (hnn : ∀ n ∈ ns, 0 ≤ n.removed ∧ 0 ≤ n.added) (h0 : wrap32 s.2.count = s.2.count)
    (hsrc : s.2.m_menuModel = some model) (hmir : s.2.count = rowCount s.1 s.2)
    (hcons : consistentFrom s.2.count ns)
    (hfit : ∀ n ∈ ns, (n.items.length : Int) < 2147483648) :
    (deliverAll model s ns).2.count =
      rowCount (deliverAll model s ns).1 (deliverAll model s ns).2 := by
  induction ns generalizing s with
  | nil => simpa [deliverAll] using hmir
  | cons n rest ih =>
    have hn := hnn n (List.mem_cons_self _ _)
    have hd := deliver_count model s n hn.1 hn.2 h0
    obtain ⟨hc1, hc2⟩ := hcons
    obtain ⟨d1, d2⟩ := deliver_rowCount model s n hsrc
    have hlen := hfit n (List.mem_cons_self _ _)
    have hval : (deliver model s n).2.count = s.2.count - n.removed + n.added := by
      rw [hd, ← hc1]
      exact wrap32_of_range _ (by omega) hlen
    have hstep : deliverAll model s (n :: rest) = deliverAll model (deliver model s n) rest := by
      simp [deliverAll]
    rw [hstep]
    apply ih (deliver model s n) (fun x hx => hnn x (List.mem_cons_of_mem _ hx))
      (by rw [hd, wrap32_wrap32]) d1
    · rw [d2, hval, hc1]
    · rw [hval]; exact hc2
    · exact fun x hx => hfit x (List.mem_cons_of_mem _ hx)

theorem consistentFrom_take (ns : List ItemsChanged) (c : Int) (j : Nat)
    (h : consistentFrom c ns) : consistentFrom c (ns.take j) := by
  induction ns generalizing c j with
  | nil => simpa using h
  | cons n rest ih =>
    cases j with
    | zero => simp [consistentFrom]
    | succ i =>
      rw [List.take_succ_cons]
      exact ⟨h.1, ih _ i h.2⟩

/-- C3 fails as stated: from a count of 5, the notification `(0, 0, 2147483647)` leaves the
32-bit count at -2147483644, not at 5 + 2147483647 = 2147483652. -/
theorem count_wraps_around :
    scenarioA.2.count = 5 ∧
      0 ≤ (0 : Int) ∧ 0 ≤ (2147483647 : Int) ∧
      (deliver 10 scenarioA
        ⟨[plainItem, plainItem, plainItem, plainItem, plainItem], 0, 0, 2147483647⟩).2.count =
        -2147483644 ∧
      (deliver 10 scenarioA
        ⟨[plainItem, plainItem, plainItem, plainItem, plainItem], 0, 0, 2147483647⟩).2.count ≠
        scenarioA.2.count +
          sumAdded [⟨[plainItem, plainItem, plainItem, plainItem, plainItem], 0, 0, 2147483647⟩] -
          sumRemoved
            [⟨[plainItem, plainItem, plainItem, plainItem, plainItem], 0, 0, 2147483647⟩] := by
  decide

/-- C3, as the code has it. After any number of notifications with non-negative counts,
delivered in order to a model whose count holds the value of a 32-bit `int` (as the member
`m_rowCount` does), `count()` is the initial count plus the sum of all `added` minus the sum
of all `removed` delivered so far, wrapped to 32 bits, whatever the source holds, and is
again the value of a 32-bit `int`; it is that sum itself whenever the sum is in the range of
an `int`; and when the model mirrors its source at the start and every notification is
consistent with the items of the source, which fit an `int`, `count()` equals `rowCount()`
after every notification. -/
theorem count_tracks_notifications (model : Nat) (s : World × QMenuModel)
    (ns : List ItemsChanged) (j : Nat)
    (hnn : ∀ n ∈ ns, 0 ≤ n.removed ∧ 0 ≤ n.added)
    (hlo : -2147483648 ≤ s.2.count) (hhi : s.2.count < 2147483648) :
    (deliverAll model s (ns.take j)).2.count =
        wrap32 (s.2.count + sumAdded (ns.take j) - sumRemoved (ns.take j)) ∧
      (-2147483648 ≤ (deliverAll model s (ns.take j)).2.count ∧
        (deliverAll model s (ns.take j)).2.count < 2147483648) ∧
      (-2147483648 ≤ s.2.count + sumAdded (ns.take j) - sumRemoved (ns.take j) →
        s.2.count + sumAdded (ns.take j) - sumRemoved (ns.take j) < 2147483648 →
        (deliverAll model s (ns.take j)).2.count =
          s.2.count + sumAdded (ns.take j) - sumRemoved (ns.take j)) ∧
      (s.2.m_menuModel = some model → s.2.count = rowCount s.1 s.2 →
        consistentFrom s.2.count ns →
        (∀ n ∈ ns, (n.items.length : Int) < 2147483648) →
        (deliverAll model s (ns.take j)).2.count =
          rowCount (deliverAll model s (ns.take j)).1 (deliverAll model s (ns.take j)).2) := by
  have h0 : wrap32 s.2.count = s.2.count := wrap32_of_range _ hlo hhi
  have htake : ∀ n ∈ ns.take j, 0 ≤ n.removed ∧ 0 ≤ n.added :=
    fun n hn => hnn n (List.mem_of_mem_take hn)
  have h1 := deliverAll_count model (ns.take j) s htake h0
  refine ⟨h1, by rw [h1]; exact wrap32_range _, ?_, ?_⟩
  · intro a b
    rw [h1]
    exact wrap32_of_range _ a b
  · intro hsrc hmir hcons hfit
    exact deliverAll_mirror model (ns.take j) s htake h0 hsrc hmir
      (consistentFrom_take ns _ j hcons) (fun n hn => hfit n (List.mem_of_mem_take hn))

theorem g_menu_model_get_item_link_congr (w1 w2 : World) (h : w1.gmodels = w2.gmodels)
    (m : Nat) (row : Int) (link : String) :
    g_menu_model_get_item_link w1 m row link = g_menu_model_get_item_link w2 m row link := by
  simp [g_menu_model_get_item_link, World.items, h]

theorem construct_gmodels (w : World) (other : Option Nat) :
    (construct w other).1.gmodels = w.gmodels := by
  unfold construct
  exact (setMenuModel_world _ _ _).1

theorem construct_ident (w : World) (other : Option Nat) :
    (construct w other).2.ident = w.nextIdent := by
  unfold construct
  exact setMenuModel_ident _ _ _

theorem construct_m_menuModel (w : World) (other : Option Nat) :
    (construct w other).2.m_menuModel = other := by
  unfold construct
  exact setMenuModel_m_menuModel _ _ _

@[simp] theorem call_gmodels (w : World) (c : GCall) : (w.call c).gmodels = w.gmodels := rfl
@[simp] theorem call_nextIdent (w : World) (c : GCall) : (w.call c).nextIdent = w.nextIdent :=
  rfl

/-- Method `getLink` on a row whose child is cached. -/
theorem getLink_hit (w : World) (self : QMenuModel) (row : Int) (linkName : String)
    (m link : Nat) (cached : QMenuModel) (hsrc : self.m_menuModel = some m)
    (hlink : g_menu_model_get_item_link w m row linkName = some link)
    (hv : QHash.value self.m_cache row = some cached) :
    getLink w self row linkName =
      ((w.call (GCall.g_menu_model_get_item_link link)).call (GCall.g_object_unref link),
        self, QVariant.object cached.ident) := by
  unfold getLink
  simp [hsrc, hlink, QHash.contains_iff, hv]

/-- Method `getLink` on a row without cached child. -/
theorem getLink_miss (w : World) (self : QMenuModel) (row : Int) (linkName : String)
    (m link : Nat) (hsrc : self.m_menuModel = some m)
    (hlink : g_menu_model_get_item_link w m row linkName = some link)
    (hv : QHash.value self.m_cache row = none) :
    getLink w self row linkName =
      ((construct (w.call (GCall.g_menu_model_get_item_link link)) (some link)).1.call
          (GCall.g_object_unref link),
       { self with
         m_cache := QHash.insert self.m_cache row
           (construct (w.call (GCall.g_menu_model_get_item_link link)) (some link)).2 },
       QVariant.object
        (construct (w.call (GCall.g_menu_model_get_item_link link)) (some link)).2.ident) := by
  unfold getLink
  simp [hsrc, hlink, QHash.contains_iff, hv]

/-- C4 fails as stated: in scenario B the child cached at row 4 is still in the cache after
the batch `(1, 2, 0)`, at row 2. -/
theorem scenarioB_child_survives :
    (QHash.value scenarioB.2.m_cache 4).isSome = true ∧
      QHash.value (deliver 10 scenarioB scenarioBBatch).2.m_cache 2 =
        QHash.value scenarioB.2.m_cache 4 :=
  ⟨by decide, rfl⟩

/-- C4, as the code has it. On a source that had 5 rows and has 3 when the handler runs,
with a child cached at row 4, the batch `(1, 2, 0)` keeps the child and re-keys it to
row 2, and the row count goes from 5 to 3. -/
theorem onItemsChanged_scenarioB (w : World) (model : Nat) (self : QMenuModel)
    (child : QMenuModel) (hsrc : g_menu_model_get_n_items w model = 3)
    (hcount : self.count = 5)
    (hkeys : ∀ k c, QHash.value self.m_cache k = some c → 0 ≤ k ∧ k < 5)
    (hchild : QHash.value self.m_cache 4 = some child) :
    QHash.value (onItemsChanged w model 1 2 0 self).2.m_cache 2 = some child ∧
      (onItemsChanged w model 1 2 0 self).2.count = 3 := by
  refine ⟨?_, ?_⟩
  · rw [onItemsChanged_value w model 1 2 0 5 self (by decide) (by decide) (by decide)
      (by rw [hsrc]; decide) hkeys]
    simpa using hchild
  · unfold count at hcount ⊢
    rw [onItemsChanged_m_rowCount, hcount]
    decide

/-- C9 fails as stated: in scenario A, batch `(2, 1, 3)`, a `countChanged` is emitted before
the rows-inserted notification. -/
theorem scenarioA_countChanged_before_insert :
    countChangedBefore (Signal.rowsInserted 2 4)
      ((deliver 10 scenarioA scenarioABatch).2.emitted.drop scenarioA.2.emitted.length) =
        true := by
  decide

/-- C9, as the code has it. For a batch that removes and inserts rows, handled by a
constructed model, the notifications are in order: about-to-remove, rows-removed,
`countChanged`, about-to-insert, rows-inserted, `countChanged`. A `countChanged` follows
each completed phase: one right after the removal is complete and before the insertion
begins, one right after the insertion is complete. -/
theorem onItemsChanged_replace_signals (w : World) (model : Nat) (p rm ad : Int)
    (self : QMenuModel) (hrm : rm > 0) (had : ad > 0)
    (hconn : self.countChangedConnected = true) :
    (onItemsChanged w model p rm ad self).2.emitted =
      self.emitted ++
        [Signal.rowsAboutToBeRemoved p (p + rm - 1), Signal.rowsRemoved p (p + rm - 1),
         Signal.countChanged,
         Signal.rowsAboutToBeInserted p (p + ad - 1), Signal.rowsInserted p (p + ad - 1),
         Signal.countChanged] := by
  rw [onItemsChanged_emitted]
  simp [hrm, had, hconn]


/-- The child created in the scenarios: the object 101 attached to the source 11. -/
theorem scenarioC_cache :
    scenarioC.2.m_cache =
      [(3, ⟨101, some 11, 2, 1, [], true, [Signal.modelAboutToBeReset, Signal.modelReset]⟩)] := by
  rfl

theorem scenarioB_cache :
    scenarioB.2.m_cache =
      [(4, ⟨101, some 11, 2, 1, [], true, [Signal.modelAboutToBeReset, Signal.modelReset]⟩)] := by
  rfl

/-- Scenario C, an instance of C1: the child cached at row 3 of a 5-row source is cached at
row 5 after the batch `(1, 0, 2)`. -/
theorem scenarioC_rekeyed :
    QHash.value (onItemsChanged (scenarioC.1.setItems 10 scenarioCBatch.items) 10 1 0 2
        scenarioC.2).2.m_cache (3 - 0 + 2) =
      some ⟨101, some 11, 2, 1, [], true, [Signal.modelAboutToBeReset, Signal.modelReset]⟩ :=
  (onItemsChanged_rekeys (scenarioC.1.setItems 10 scenarioCBatch.items) 10 1 0 2 5 scenarioC.2
    (by decide) (by decide) (by decide) (by decide) (by decide)
    (by
      intro k child h
      rw [scenarioC_cache] at h
      simp only [QHash.value] at h
      by_cases hk : (3 : Int) = k
      · omega
      · rw [if_neg hk] at h; cases h)
    (by
      intro k1 k2 c1 c2 h1 h2 _
      rw [scenarioC_cache] at h1 h2
      simp only [QHash.value] at h1 h2
      by_cases hk1 : (3 : Int) = k1
      · by_cases hk2 : (3 : Int) = k2
        · omega
        · rw [if_neg hk2] at h2; cases h2
      · rw [if_neg hk1] at h1; cases h1)).2.2.1 3 _ (by decide)
    (by rw [scenarioC_cache]; rfl)

/-- An instance of the amended C3: scenario A as a sequence of one notification. -/
theorem scenarioA_count_tracked :
    (∀ n ∈ [scenarioABatch], 0 ≤ n.removed ∧ 0 ≤ n.added) ∧
      -2147483648 ≤ scenarioA.2.count ∧ scenarioA.2.count < 2147483648 ∧
      (deliverAll 10 scenarioA ([scenarioABatch].take 1)).2.count =
        wrap32 (scenarioA.2.count + sumAdded ([scenarioABatch].take 1) -
          sumRemoved ([scenarioABatch].take 1)) ∧
      (deliverAll 10 scenarioA ([scenarioABatch].take 1)).2.count = 7 :=
  ⟨by simp [scenarioABatch], by decide, by decide,
   (count_tracks_notifications 10 scenarioA [scenarioABatch] 1
    (by simp [scenarioABatch]) (by decide) (by decide)).1, by decide⟩

/-- Scenario B, an instance of the amended C4. -/
theorem scenarioB_rekeyed :
    QHash.value (onItemsChanged (scenarioB.1.setItems 10 scenarioBBatch.items) 10 1 2 0
        scenarioB.2).2.m_cache 2 =
      some ⟨101, some 11, 2, 1, [], true, [Signal.modelAboutToBeReset, Signal.modelReset]⟩ ∧
    (onItemsChanged (scenarioB.1.setItems 10 scenarioBBatch.items) 10 1 2 0
        scenarioB.2).2.count = 3 :=
  onItemsChanged_scenarioB (scenarioB.1.setItems 10 scenarioBBatch.items) 10 scenarioB.2 _
    (by decide) (by decide)
    (by
      intro k c h
      rw [scenarioB_cache] at h
      simp only [QHash.value] at h
      by_cases hk : (4 : Int) = k
      · omega
      · rw [if_neg hk] at h; cases h)
    (by rw [scenarioB_cache]; rfl)

/-- An instance of C5: row 7 of a five-row model. -/
theorem scenarioA_row7_invalid :
    data (fun _ => QVariant.invalid) scenarioA.1 scenarioA.2 7 Label =
      (scenarioA.1, scenarioA.2, QVariant.invalid) :=
  data_out_of_range (fun _ => QVariant.invalid) scenarioA.1 scenarioA.2 7 Label
    (Or.inr (by decide))

/-- An instance of C7: detaching the model of scenario C, which holds a child at row 3. -/
theorem scenarioC_detach_resets_then_countChanged :
    scenarioC.2.m_menuModel ≠ none ∧
      (setMenuModel scenarioC.1 scenarioC.2 none).2.emitted =
        scenarioC.2.emitted ++ ([Signal.modelAboutToBeReset, Signal.modelReset] ++
          (if scenarioC.2.countChangedConnected then [Signal.countChanged] else [])) ∧
      (setMenuModel scenarioC.1 scenarioC.2 none).2.menuModel = none ∧
      (setMenuModel scenarioC.1 scenarioC.2 none).2.count = 0 ∧
      (setMenuModel scenarioC.1 scenarioC.2 none).2.cache = [] ∧
      ∃ l, (setMenuModel scenarioC.1 scenarioC.2 none).1.deleteLater =
          scenarioC.1.deleteLater ++ l ∧
        ∀ e ∈ scenarioC.2.m_cache, ∃ c ∈ l, c.ident = e.2.ident ∧ c.m_menuModel = none :=
  ⟨by decide, setMenuModel_resets_then_countChanged scenarioC.1 scenarioC.2 none (by decide)⟩

/-- Scenario A, an instance of the amended C9. -/
theorem scenarioA_replace_order :
    (onItemsChanged (scenarioA.1.setItems 10 scenarioABatch.items) 10 2 1 3
        scenarioA.2).2.emitted =
      scenarioA.2.emitted ++
        [Signal.rowsAboutToBeRemoved 2 (2 + 1 - 1), Signal.rowsRemoved 2 (2 + 1 - 1),
         Signal.countChanged,
         Signal.rowsAboutToBeInserted 2 (2 + 3 - 1), Signal.rowsInserted 2 (2 + 3 - 1),
         Signal.countChanged] :=
  onItemsChanged_replace_signals (scenarioA.1.setItems 10 scenarioABatch.items) 10 2 1 3
    scenarioA.2 (by decide) (by decide) (by decide)


/-- With the destructor flag, the loop of `clearModel` only queues the children, as they
are. -/
theorem clearChildren_destructor (cache : List (Int × QMenuModel)) (w : World) :
    clearChildren true w cache =
      { w with deleteLater := w.deleteLater ++ cache.map (fun e => e.2) } := by
  induction cache generalizing w with
  | nil => simp [clearChildren]
  | cons e rest ih =>
    obtain ⟨k, child⟩ := e
    simp only [clearChildren, if_true, ih]
    simp

/-- C14. Teardown on destruction, `clearModel(true)`, emits nothing on the model and touches
no cached child: the only GLib calls disconnect the handler and release the source when one
is attached, every cached child is appended unchanged (still attached, nothing emitted) to
the deletion queue, and the cache is emptied. -/
theorem clearModel_destructor (w : World) (self : QMenuModel) :
    (clearModel w self true).2.emitted = self.emitted ∧
      (clearModel w self true).2.m_cache = [] ∧
      (clearModel w self true).2.m_menuModel = none ∧
      (clearModel w self true).1.deleteLater =
        w.deleteLater ++ self.m_cache.map (fun e => e.2) ∧
      (clearModel w self true).1.glib =
        w.glib ++
          (match self.m_menuModel with
           | some m => [GCall.g_signal_handler_disconnect m self.m_signalChangedId,
                        GCall.g_object_unref m]
           | none => []) ∧
      (clearModel w self true).1.gmodels = w.gmodels ∧
      destruct w self = (clearModel w self true).1 := by
  unfold destruct clearModel
  simp only [clearChildren_destructor, releaseSource_m_cache, releaseSource_deleteLater,
    releaseSource_gmodels, releaseSource_emitted, releaseSource_m_menuModel]
  refine ⟨trivial, trivial, trivial, trivial, ?_, trivial, trivial⟩
  unfold releaseSource
  cases self.m_menuModel <;> simp


theorem itemAt_range (items : List GMenuItem) (row : Int) (item : GMenuItem)
    (h : itemAt items row = some item) : 0 ≤ row ∧ row < items.length := by
  unfold itemAt at h
  by_cases h0 : 0 ≤ row
  · rw [if_pos h0] at h
    refine ⟨h0, ?_⟩
    have := List.get?_eq_some.1 h
    obtain ⟨hlt, _⟩ := this
    omega
  · rw [if_neg h0] at h; cases h

theorem link_in_range (w : World) (self : QMenuModel) (row : Int) (linkName : String)
    (m link : Nat) (hsrc : self.m_menuModel = some m)
    (hlink : g_menu_model_get_item_link w m row linkName = some link) :
    rowCount w self > 0 ∧ row ≥ 0 ∧ row < rowCount w self := by
  unfold g_menu_model_get_item_link at hlink
  cases hi : itemAt (w.items m) row with
  | none => rw [hi] at hlink; cases hlink
  | some item =>
    have := itemAt_range _ _ _ hi
    unfold rowCount
    rw [hsrc]
    simp only [g_menu_model_get_n_items]
    omega

/-- Reading the section-link role of a row that has the link is `getLink` for `section`. -/
theorem data_LinkSection (toQVariant : GVariant → QVariant) (w : World) (self : QMenuModel)
    (row : Int) (m link : Nat) (hsrc : self.m_menuModel = some m)
    (hlink : g_menu_model_get_item_link w m row "section" = some link) :
    data toQVariant w self row LinkSection = getLink w self row "section" := by
  unfold data
  simp only [link_in_range w self row "section" m link hsrc hlink, and_self, if_true, hsrc,
    Option.isSome_some]
  simp [LinkSection, Action, Label]

/-- Reading the submenu-link role of a row that has the link is `getLink` for `submenu`. -/
theorem data_LinkSubMenu (toQVariant : GVariant → QVariant) (w : World) (self : QMenuModel)
    (row : Int) (m link : Nat) (hsrc : self.m_menuModel = some m)
    (hlink : g_menu_model_get_item_link w m row "submenu" = some link) :
    data toQVariant w self row LinkSubMenu = getLink w self row "submenu" := by
  unfold data
  simp only [link_in_range w self row "submenu" m link hsrc hlink, and_self, if_true, hsrc,
    Option.isSome_some]
  simp [LinkSubMenu, LinkSection, Action, Label]

/-- What `getLink` leaves behind on a row that has the link: the row is cached, the result is
the cached object, and the sources and the attachment are as before. -/
theorem getLink_result (w : World) (self : QMenuModel) (row : Int) (linkName : String)
    (m link : Nat) (hsrc : self.m_menuModel = some m)
    (hlink : g_menu_model_get_item_link w m row linkName = some link) :
    ∃ child, QHash.value (getLink w self row linkName).2.1.m_cache row = some child ∧
      (getLink w self row linkName).2.2 = QVariant.object child.ident ∧
      (getLink w self row linkName).2.1.m_menuModel = some m ∧
      (getLink w self row linkName).1.gmodels = w.gmodels ∧
      (QHash.value self.m_cache row = none →
        child.m_menuModel = some link ∧ child.ident = w.nextIdent) := by
  cases hv : QHash.value self.m_cache row with
  | some cached =>
    rw [getLink_hit w self row linkName m link cached hsrc hlink hv]
    exact ⟨cached, hv, rfl, hsrc, rfl, fun h => by cases h⟩
  | none =>
    rw [getLink_miss w self row linkName m link hsrc hlink hv]
    refine ⟨(construct (w.call (GCall.g_menu_model_get_item_link link)) (some link)).2,
      ?_, rfl, hsrc, ?_, fun _ => ⟨?_, ?_⟩⟩
    · show QHash.value (QHash.insert self.m_cache row _) row = _
      rw [QHash.value_insert, if_pos rfl]
    · show ((construct _ _).1.call _).gmodels = _
      rw [call_gmodels, construct_gmodels, call_gmodels]
    · rw [construct_m_menuModel]
    · rw [construct_ident, call_nextIdent]

/-- A second `getLink` on a cached row, for any link the row has, returns the cached object
and only records the lookup and the release of the link. -/
theorem getLink_again (w : World) (self : QMenuModel) (row : Int) (first second : String)
    (m l1 l2 : Nat) (hsrc : self.m_menuModel = some m)
    (h1 : g_menu_model_get_item_link w m row first = some l1)
    (h2 : g_menu_model_get_item_link w m row second = some l2) :
    getLink (getLink w self row first).1 (getLink w self row first).2.1 row second =
      (((getLink w self row first).1.call (GCall.g_menu_model_get_item_link l2)).call
          (GCall.g_object_unref l2),
        (getLink w self row first).2.1, (getLink w self row first).2.2) := by
  obtain ⟨child, hc, hr, hm, hg, _⟩ := getLink_result w self row first m l1 hsrc h1
  rw [getLink_hit (getLink w self row first).1 (getLink w self row first).2.1 row second m l2
    child hm (by rw [← h2]; exact g_menu_model_get_item_link_congr _ _ hg _ _ _) hc, hr]

/-- C19. The cache is keyed by the row alone. On a row whose item has both a section link
and a submenu link, reading the two link roles in either order returns the same object; the
second read leaves the model as the first left it and allocates nothing; and when the row
was not cached before, the object is the one attached to the source of the link read
first. -/
theorem link_roles_share_child (toQVariant : GVariant → QVariant) (w : World)
    (self : QMenuModel) (row : Int) (m l1 l2 : Nat) (hsrc : self.m_menuModel = some m)
    (hsec : g_menu_model_get_item_link w m row "section" = some l1)
    (hsub : g_menu_model_get_item_link w m row "submenu" = some l2) :
    ((data toQVariant (data toQVariant w self row LinkSection).1
          (data toQVariant w self row LinkSection).2.1 row LinkSubMenu).2.2 =
        (data toQVariant w self row LinkSection).2.2 ∧
      (data toQVariant (data toQVariant w self row LinkSection).1
          (data toQVariant w self row LinkSection).2.1 row LinkSubMenu).2.1 =
        (data toQVariant w self row LinkSection).2.1 ∧
      (data toQVariant (data toQVariant w self row LinkSection).1
          (data toQVariant w self row LinkSection).2.1 row LinkSubMenu).1.nextIdent =
        (data toQVariant w self row LinkSection).1.nextIdent ∧
      (QHash.value self.m_cache row = none →
        ∃ child, (data toQVariant w self row LinkSection).2.2 = QVariant.object child.ident ∧
          QHash.value (data toQVariant w self row LinkSection).2.1.m_cache row = some child ∧
          child.m_menuModel = some l1)) ∧
    ((data toQVariant (data toQVariant w self row LinkSubMenu).1
          (data toQVariant w self row LinkSubMenu).2.1 row LinkSection).2.2 =
        (data toQVariant w self row LinkSubMenu).2.2 ∧
      (data toQVariant (data toQVariant w self row LinkSubMenu).1
          (data toQVariant w self row LinkSubMenu).2.1 row LinkSection).2.1 =
        (data toQVariant w self row LinkSubMenu).2.1 ∧
      (data toQVariant (data toQVariant w self row LinkSubMenu).1
          (data toQVariant w self row LinkSubMenu).2.1 row LinkSection).1.nextIdent =
        (data toQVariant w self row LinkSubMenu).1.nextIdent ∧
      (QHash.value self.m_cache row = none →
        ∃ child, (data toQVariant w self row LinkSubMenu).2.2 = QVariant.object child.ident ∧
          QHash.value (data toQVariant w self row LinkSubMenu).2.1.m_cache row = some child ∧
          child.m_menuModel = some l2)) := by
  have ha := data_LinkSection toQVariant w self row m l1 hsrc hsec
  have hb := data_LinkSubMenu toQVariant w self row m l2 hsrc hsub
  obtain ⟨c1, hc1, hr1, hm1, hg1, hn1⟩ := getLink_result w self row "section" m l1 hsrc hsec
  obtain ⟨c2, hc2, hr2, hm2, hg2, hn2⟩ := getLink_result w self row "submenu" m l2 hsrc hsub
  have hab := data_LinkSubMenu toQVariant (getLink w self row "section").1
    (getLink w self row "section").2.1 row m l2 hm1
    (by rw [← hsub]; exact g_menu_model_get_item_link_congr _ _ hg1 _ _ _)
  have hba := data_LinkSection toQVariant (getLink w self row "submenu").1
    (getLink w self row "submenu").2.1 row m l1 hm2
    (by rw [← hsec]; exact g_menu_model_get_item_link_congr _ _ hg2 _ _ _)
  rw [ha, hb, hab, hba,
    getLink_again w self row "section" "submenu" m l1 l2 hsrc hsec hsub,
    getLink_again w self row "submenu" "section" m l2 l1 hsrc hsub hsec]
  exact ⟨⟨rfl, rfl, rfl, fun h => ⟨c1, hr1, hc1, (hn1 h).1⟩⟩,
    ⟨rfl, rfl, rfl, fun h => ⟨c2, hr2, hc2, (hn2 h).1⟩⟩⟩


theorem evictStep_cache (i : Int) (s : World × QHash) :
    (evictStep i s).2 = if QHash.contains s.2 i then QHash.remove s.2 i else s.2 := by
  unfold evictStep
  by_cases h : QHash.contains s.2 i = true
  · rw [if_pos h, if_pos h]
    simp only [QHash.take]
    cases QHash.value s.2 i <;> rfl
  · rw [if_neg h, if_neg h]

/-- The cache left by the eviction loop does not depend on the world. -/
theorem evictLoop_cache (n : Nat) (p : Int) (s t : World × QHash) (h : s.2 = t.2) :
    (forUp evictStep n p s).2 = (forUp evictStep n p t).2 := by
  induction n with
  | zero => exact h
  | succ k ih => rw [forUp_succ, forUp_succ, evictStep_cache, evictStep_cache, ih]

theorem setItems_items (w : World) (model : Nat) (items : List GMenuItem) :
    (w.setItems model items).items model = items := by
  simp [World.items, World.setItems, List.lookup]

/-- C18. Handling one notification `(p, rm, ad)` leaves the model exactly as handling
`(p, rm, 0)` with the source at its count after the removal, followed by `(p, 0, ad)` with
the source at its final count: the same row count, the same cache and the same sequence of
signals. The insertion loop starts from the count after the removal in both. -/
theorem replace_is_remove_then_insert (model : Nat) (s : World × QMenuModel)
    (p rm ad : Int) (itemsMid itemsAfter : List GMenuItem)
    (hlen : (itemsAfter.length : Int) = itemsMid.length + ad) :
    (deliver model (deliver model s ⟨itemsMid, p, rm, 0⟩) ⟨itemsAfter, p, 0, ad⟩).2 =
      (deliver model s ⟨itemsAfter, p, rm, ad⟩).2 := by
  have hA : g_menu_model_get_n_items (s.1.setItems model itemsAfter) model =
      (itemsAfter.length : Int) := g_menu_model_get_n_items_setItems _ _ _
  have hB : g_menu_model_get_n_items (s.1.setItems model itemsMid) model =
      (itemsMid.length : Int) := g_menu_model_get_n_items_setItems _ _ _
  have hC : ∀ w : World, g_menu_model_get_n_items (w.setItems model itemsAfter) model =
      (itemsAfter.length : Int) := fun w => g_menu_model_get_n_items_setItems _ _ _
  unfold deliver onItemsChanged
  simp only [hA, hB, hC, hlen]
  have e1 : (itemsMid.length : Int) + rm - 0 = (itemsMid.length : Int) + ad + rm - ad := by
    ring
  have e2 : (itemsMid.length : Int) + ad + 0 - ad - 0 - 1 =
      (itemsMid.length : Int) + ad + rm - ad - rm - 1 := by ring
  have e3 : (itemsMid.length : Int) + ad + 0 - ad - 0 - 1 - p + 1 =
      (itemsMid.length : Int) + ad + rm - ad - rm - 1 - p + 1 := by ring
  by_cases hrm : rm > 0 <;> by_cases had : ad > 0
  · simp only [hrm, had, if_true, lt_irrefl, gt_iff_lt, if_false, e1, e2, e3]
    rw [evictLoop_cache _ _ (s.1.setItems model itemsMid, _)
      (s.1.setItems model itemsAfter, (s.2.beginRemoveRows p (p + rm - 1)).m_cache) rfl]
  · simp only [hrm, had, if_true, lt_irrefl, gt_iff_lt, if_false, e1]
    rw [evictLoop_cache _ _ (s.1.setItems model itemsMid, _)
      (s.1.setItems model itemsAfter, (s.2.beginRemoveRows p (p + rm - 1)).m_cache) rfl]
  · simp only [hrm, had, if_true, lt_irrefl, gt_iff_lt, if_false, e2, e3]
  · simp only [hrm, had, if_true, lt_irrefl, gt_iff_lt, if_false]


theorem QMap.mem_keys_insert (m : List (String × QVariant)) (k : String) (v : QVariant)
    (key : String) :
    key ∈ QMap.keys (QMap.insert m k v) ↔ key = k ∨ key ∈ QMap.keys m := by
  simp only [QMap.keys, QMap.insert, List.map_cons, List.mem_cons, List.mem_map,
    List.mem_filter, decide_eq_true_eq]
  constructor
  · rintro (h | ⟨e, ⟨he, _⟩, rfl⟩)
    · exact Or.inl h
    · exact Or.inr ⟨e, he, rfl⟩
  · rintro (h | ⟨e, he, rfl⟩)
    · exact Or.inl h
    · by_cases hk : e.1 = k
      · exact Or.inl hk
      · exact Or.inr ⟨e, ⟨he, hk⟩, rfl⟩

theorem startsWith_x_dash (s : List Char) :
    startsWith s "x-".data = true ↔ ∃ rest, s = 'x' :: '-' :: rest := by
  have hx : "x-".data = ['x', '-'] := rfl
  rw [hx]
  cases s with
  | nil => simp [startsWith]
  | cons a t =>
    cases t with
    | nil => simp [startsWith]
    | cons b u => simp [startsWith]

theorem parseExtraPropertyName_x_dash (name : String) (rest : List Char)
    (h : name.data = 'x' :: '-' :: rest) :
    parseExtraPropertyName name = String.mk (rest.map (fun c => if c = '-' then '_' else c)) := by
  unfold parseExtraPropertyName
  have hs : startsWith name.data "x-".data = true := (startsWith_x_dash _).2 ⟨rest, h⟩
  simp only []
  rw [if_pos hs, h]
  rfl

theorem mem_keys_extra (toQVariant : GVariant → QVariant) (attrs : List (String × GVariant))
    (init : List (String × QVariant)) (key : String) :
    key ∈ QMap.keys (attrs.foldl (fun extra a =>
        if startsWith a.1.data "x-".data then
          QMap.insert extra (parseExtraPropertyName a.1) (toQVariant a.2)
        else extra) init) ↔
      key ∈ QMap.keys init ∨
        ∃ a ∈ attrs, startsWith a.1.data "x-".data = true ∧
          key = parseExtraPropertyName a.1 := by
  induction attrs generalizing init with
  | nil => simp
  | cons a rest ih =>
    rw [List.foldl_cons, ih]
    by_cases hx : startsWith a.1.data "x-".data = true
    · rw [if_pos hx, QMap.mem_keys_insert]
      constructor
      · rintro ((h | h) | ⟨b, hb, hb2⟩)
        · exact Or.inr ⟨a, List.mem_cons_self _ _, hx, h⟩
        · exact Or.inl h
        · exact Or.inr ⟨b, List.mem_cons_of_mem _ hb, hb2⟩
      · rintro (h | ⟨b, hb, hb2⟩)
        · exact Or.inl (Or.inr h)
        · rcases List.mem_cons.1 hb with rfl | hb'
          · exact Or.inl (Or.inl hb2.2)
          · exact Or.inr ⟨b, hb', hb2⟩
    · rw [if_neg hx]
      constructor
      · rintro (h | ⟨b, hb, hb2⟩)
        · exact Or.inl h
        · exact Or.inr ⟨b, List.mem_cons_of_mem _ hb, hb2⟩
      · rintro (h | ⟨b, hb, hb2⟩)
        · exact Or.inl h
        · rcases List.mem_cons.1 hb with rfl | hb'
          · exact absurd hb2.1 hx
          · exact Or.inr ⟨b, hb', hb2⟩

/-- C12. For a row of the attached source, `getExtraProperties` returns a map whose keys are
exactly the normalised names of the attributes of the row that start with `x-`: the name
without its leading `x-` and with every `-` replaced by `_`. Other attributes give no key,
and no key contains a hyphen. -/
theorem getExtraProperties_keys (toQVariant : GVariant → QVariant) (w : World)
    (self : QMenuModel) (row : Int) (m : Nat) (item : GMenuItem)
    (hsrc : self.m_menuModel = some m) (hitem : itemAt (w.items m) row = some item) :
    ∃ extra, getExtraProperties toQVariant w self row = QVariant.map extra ∧
      (∀ key, key ∈ QMap.keys extra ↔
        ∃ a ∈ item.attributes, ∃ rest, a.1.data = 'x' :: '-' :: rest ∧
          key = String.mk (rest.map (fun c => if c = '-' then '_' else c))) ∧
      (∀ key ∈ QMap.keys extra, '-' ∉ key.data) := by
  have hkeys : ∀ key, key ∈ QMap.keys (item.attributes.foldl (fun extra a =>
        if startsWith a.1.data "x-".data then
          QMap.insert extra (parseExtraPropertyName a.1) (toQVariant a.2)
        else extra) []) ↔
      ∃ a ∈ item.attributes, ∃ rest, a.1.data = 'x' :: '-' :: rest ∧
        key = String.mk (rest.map (fun c => if c = '-' then '_' else c)) := by
    intro key
    rw [mem_keys_extra]
    constructor
    · rintro (h | ⟨a, ha, hx, hk⟩)
      · simp [QMap.keys] at h
      · obtain ⟨rest, hr⟩ := (startsWith_x_dash _).1 hx
        exact ⟨a, ha, rest, hr, by rw [hk, parseExtraPropertyName_x_dash a.1 rest hr]⟩
    · rintro ⟨a, ha, rest, hr, hk⟩
      exact Or.inr ⟨a, ha, (startsWith_x_dash _).2 ⟨rest, hr⟩,
        by rw [hk, parseExtraPropertyName_x_dash a.1 rest hr]⟩
  refine ⟨_, ?_, hkeys, ?_⟩
  · have hit : g_menu_model_iterate_item_attributes w m row = some item.attributes := by
      unfold g_menu_model_iterate_item_attributes
      rw [hitem]
    unfold getExtraProperties
    rw [hsrc]
    show (match g_menu_model_iterate_item_attributes w m row with
      | none => QVariant.invalid
      | some attrs => _) = _
    rw [hit]
  · intro key hkey hmem
    obtain ⟨a, _, rest, _, hk⟩ := (hkeys key).1 hkey
    rw [hk] at hmem
    simp only [List.mem_map] at hmem
    obtain ⟨c, _, hc⟩ := hmem
    by_cases h : c = '-'
    · rw [if_pos h] at hc
      exact absurd hc (by decide)
    · rw [if_neg h] at hc
      exact h hc


theorem forUp_add {σ : Type} (body : Int → σ → σ) (a b : Nat) (i : Int) (s : σ) :
    forUp body (a + b) i s = forUp body b (i + a) (forUp body a i s) := by
  induction b with
  | zero => simp [forUp]
  | succ k ih =>
    rw [← Nat.add_assoc, forUp_succ, forUp_succ, ih]
    congr 1
    push_cast
    ring

theorem forUp_fixed {σ : Type} (body : Int → σ → σ) (lo : Int)
    (h : ∀ i s, lo ≤ i → body i s = s) (n : Nat) (s : σ) :
    forUp body n lo s = s := by
  induction n with
  | zero => rfl
  | succ k ih => rw [forUp_succ, ih, h _ _ (by omega)]

/-- For a role outside the five known ones `data` is invalid and changes nothing. -/
theorem data_other_role (toQVariant : GVariant → QVariant) (w : World) (self : QMenuModel)
    (row role : Int) (h : 5 ≤ role) :
    data toQVariant w self row role = (w, self, QVariant.invalid) := by
  have h0 : role ≠ Action := by unfold Action; omega
  have h1 : role ≠ Label := by unfold Label; omega
  have h2 : role ≠ LinkSection := by unfold LinkSection; omega
  have h3 : role ≠ LinkSubMenu := by unfold LinkSubMenu; omega
  have h4 : role ≠ Extra := by unfold Extra; omega
  unfold data
  simp only [h0, h1, h2, h3, h4, if_false]
  split
  · split <;> rfl
  · rfl

theorem itemDataStep_other_role (toQVariant : GVariant → QVariant) (row role : Int)
    (s : World × QMenuModel × List (Int × QVariant)) (h : 5 ≤ role) :
    itemDataStep toQVariant row role s = s := by
  unfold itemDataStep
  rw [data_other_role toQVariant s.1 s.2.1 row role h]
  rfl

/-- The loop of `itemData` amounts to its five first iterations. -/
theorem itemData_five (toQVariant : GVariant → QVariant) (w : World) (self : QMenuModel)
    (row : Int) :
    itemData toQVariant w self row =
      itemDataStep toQVariant row 4 (itemDataStep toQVariant row 3
        (itemDataStep toQVariant row 2 (itemDataStep toQVariant row 1
          (itemDataStep toQVariant row 0 (w, self, []))))) := by
  unfold itemData
  have h256 : (UserRole - 0).toNat = 5 + 251 := by decide
  rw [h256, forUp_add, forUp_fixed _ _ (fun i s hi => itemDataStep_other_role _ _ i s (by
    simpa using hi))]
  rfl

/-- Reading the action or the label role changes nothing. -/
theorem data_Action_state (toQVariant : GVariant → QVariant) (w : World) (self : QMenuModel)
    (row : Int) :
    (data toQVariant w self row Action).1 = w ∧
      (data toQVariant w self row Action).2.1 = self := by
  unfold data
  simp only [if_true]
  split
  · split <;> exact ⟨rfl, rfl⟩
  · exact ⟨rfl, rfl⟩

theorem data_Label_state (toQVariant : GVariant → QVariant) (w : World) (self : QMenuModel)
    (row : Int) :
    (data toQVariant w self row Label).1 = w ∧
      (data toQVariant w self row Label).2.1 = self := by
  unfold data
  have : Label ≠ Action := by decide
  simp only [this, if_true, if_false]
  split
  · split <;> exact ⟨rfl, rfl⟩
  · exact ⟨rfl, rfl⟩

theorem isValid_else_invalid (v : QVariant) :
    (if v.isValid = true then v else QVariant.invalid) = v := by
  cases v <;> rfl


theorem data_Extra_state (toQVariant : GVariant → QVariant) (w : World) (self : QMenuModel)
    (row : Int) :
    (data toQVariant w self row Extra).1 = w ∧
      (data toQVariant w self row Extra).2.1 = self := by
  unfold data
  have h0 : Extra ≠ Action := by decide
  have h1 : Extra ≠ Label := by decide
  have h2 : Extra ≠ LinkSection := by decide
  have h3 : Extra ≠ LinkSubMenu := by decide
  simp only [h0, h1, h2, h3, if_true, if_false]
  split
  · split <;> exact ⟨rfl, rfl⟩
  · exact ⟨rfl, rfl⟩

theorem isValid_false (v : QVariant) (h : v.isValid = false) : v = QVariant.invalid := by
  cases v <;> first | rfl | cases h

/-- The result of `get` on a valid index, from the five reads of `data` made by `itemData`
one after the other. -/
theorem get_in_range (toQVariant : GVariant → QVariant) (w : World) (self : QMenuModel)
    (row : Int) (hin : 0 ≤ row ∧ row < rowCount w self)
    (d0 d1 d2 d3 d4 : World × QMenuModel × QVariant)
    (h0 : data toQVariant w self row 0 = d0)
    (h1 : data toQVariant d0.1 d0.2.1 row 1 = d1)
    (h2 : data toQVariant d1.1 d1.2.1 row 2 = d2)
    (h3 : data toQVariant d2.1 d2.2.1 row 3 = d3)
    (h4 : data toQVariant d3.1 d3.2.1 row 4 = d4) :
    get toQVariant w self row =
      (d4.1, d4.2.1,
        [("extra", d4.2.2), ("linkSubMenu", d3.2.2), ("linkSection", d2.2.2),
         ("label", d1.2.2), ("action", d0.2.2)]) := by
  unfold get
  rw [if_pos hin, itemData_five]
  simp only [itemDataStep]
  rw [h0, h1, h2, h3, h4]
  cases hv0 : d0.2.2.isValid <;> cases hv1 : d1.2.2.isValid <;>
    cases hv2 : d2.2.2.isValid <;> cases hv3 : d3.2.2.isValid <;>
    cases hv4 : d4.2.2.isValid <;>
    simp [roleNames, QMap.insert, List.lookup, Action, Label, LinkSection, LinkSubMenu,
      Extra] <;>
    (repeat' constructor) <;>
    first
      | exact (isValid_false _ hv0).symm
      | exact (isValid_false _ hv1).symm
      | exact (isValid_false _ hv2).symm
      | exact (isValid_false _ hv3).symm
      | exact (isValid_false _ hv4).symm


/-- C11 fails as stated: row 0 of `scenarioRich` has no action, `data` is invalid for the
action role, and yet `action` is a key of the map returned by `get`. -/
theorem get_keeps_absent_role :
    (data (fun _ => QVariant.invalid) scenarioRich.1 scenarioRich.2 0 Action).2.2.isValid =
        false ∧
      "action" ∈ QMap.keys (get (fun _ => QVariant.invalid) scenarioRich.1 scenarioRich.2 0).2.2 := by
  decide

/-- C11, as the code has it. For a row outside `[0, rowCount)` `get` returns the empty map
and changes nothing. For a row inside, the keys of the map are the five role names, whether
the role has a value or not, and each name is bound to what `data` returned for its role
when `itemData` read it (the invalid value for an absent role): action, label and section
link in the state before, the submenu link after the section link has been read, the
extensions after both. -/
theorem get_snapshot (toQVariant : GVariant → QVariant) (w : World) (self : QMenuModel)
    (row : Int) :
    (¬ (0 ≤ row ∧ row < rowCount w self) → get toQVariant w self row = (w, self, [])) ∧
    (0 ≤ row ∧ row < rowCount w self →
      (∀ key, key ∈ QMap.keys (get toQVariant w self row).2.2 ↔
        key ∈ roleNames.map (fun e => e.2)) ∧
      QMap.value (get toQVariant w self row).2.2 "action" =
        some (data toQVariant w self row Action).2.2 ∧
      QMap.value (get toQVariant w self row).2.2 "label" =
        some (data toQVariant w self row Label).2.2 ∧
      QMap.value (get toQVariant w self row).2.2 "linkSection" =
        some (data toQVariant w self row LinkSection).2.2 ∧
      QMap.value (get toQVariant w self row).2.2 "linkSubMenu" =
        some (data toQVariant (data toQVariant w self row LinkSection).1
          (data toQVariant w self row LinkSection).2.1 row LinkSubMenu).2.2 ∧
      QMap.value (get toQVariant w self row).2.2 "extra" =
        some (data toQVariant
          (data toQVariant (data toQVariant w self row LinkSection).1
            (data toQVariant w self row LinkSection).2.1 row LinkSubMenu).1
          (data toQVariant (data toQVariant w self row LinkSection).1
            (data toQVariant w self row LinkSection).2.1 row LinkSubMenu).2.1 row Extra).2.2) := by
  refine ⟨?_, ?_⟩
  · intro h
    unfold get
    rw [if_neg h]
  · intro hin
    have e0 := data_Action_state toQVariant w self row
    have e1 := data_Label_state toQVariant w self row
    have hg := get_in_range toQVariant w self row hin
      (data toQVariant w self row Action)
      (data toQVariant w self row Label)
      (data toQVariant w self row LinkSection)
      (data toQVariant (data toQVariant w self row LinkSection).1
        (data toQVariant w self row LinkSection).2.1 row LinkSubMenu)
      (data toQVariant
        (data toQVariant (data toQVariant w self row LinkSection).1
          (data toQVariant w self row LinkSection).2.1 row LinkSubMenu).1
        (data toQVariant (data toQVariant w self row LinkSection).1
          (data toQVariant w self row LinkSection).2.1 row LinkSubMenu).2.1 row Extra)
      rfl (by rw [e0.1, e0.2]; rfl) (by rw [e1.1, e1.2]; rfl) rfl rfl
    rw [hg]
    refine ⟨?_, ?_, ?_, ?_, ?_, ?_⟩
    · intro key
      simp [QMap.keys, roleNames]
      tauto
    all_goals simp [QMap.value]

/-- An instance of the amended C11: the snapshot of row 0 of `scenarioRich` binds `action`
to the invalid value that `data` returns for the action role. -/
theorem scenarioRich_snapshot_action :
    QMap.value (get (fun _ => QVariant.invalid) scenarioRich.1 scenarioRich.2 0).2.2 "action" =
      some (data (fun _ => QVariant.invalid) scenarioRich.1 scenarioRich.2 0 Action).2.2 :=
  ((get_snapshot (fun _ => QVariant.invalid) scenarioRich.1 scenarioRich.2 0).2
    (by decide)).2.1


mutual
/-- `setMenuModel` allocates no object. -/
theorem setMenuModel_nextIdent (w : World) (self : QMenuModel) (other : Option Nat) :
    (setMenuModel w self other).1.nextIdent = w.nextIdent :=
  match self with
  | ⟨ident, menuModel, signalChangedId, rowCount, cache, connected, emitted⟩ => by
    have ih := clearChildren_nextIdent false
      (releaseSource w (beginResetModel
        ⟨ident, menuModel, signalChangedId, rowCount, cache, connected, emitted⟩)).1 cache
    rw [setMenuModel_unfold]
    by_cases h : menuModel = other
    · rw [if_pos h]
    · rw [if_neg h]
      simp only [clearModel, releaseSource_m_cache, beginResetModel, emit_m_cache]
      simp only [beginResetModel] at ih
      have hb : ∀ (x : World) (y : QMenuModel), (bindSource x y other).1.nextIdent =
          x.nextIdent := by
        intro x y; unfold bindSource; cases other <;> rfl
      have hr : ∀ (x : World) (y : QMenuModel), (releaseSource x y).1.nextIdent =
          x.nextIdent := by
        intro x y; unfold releaseSource; cases y.m_menuModel <;> rfl
      rw [hb, ih, hr]
/-- The loop of `clearModel` allocates no object. -/
theorem clearChildren_nextIdent (d : Bool) (w : World) (cache : List (Int × QMenuModel)) :
    (clearChildren d w cache).nextIdent = w.nextIdent :=
  match cache with
  | [] => by rw [clearChildren]
  | (k, child) :: rest => by
    have ih1 := setMenuModel_nextIdent w child none
    cases d with
    | true =>
      have ih2 := clearChildren_nextIdent true
        { w with deleteLater := w.deleteLater ++ [child] } rest
      simp only [clearChildren, if_true]
      exact ih2
    | false =>
      have ih2 := clearChildren_nextIdent false
        { (setMenuModel w child none).1 with
          deleteLater := (setMenuModel w child none).1.deleteLater ++
            [(setMenuModel w child none).2] } rest
      simp only [clearChildren, Bool.false_eq_true, if_false]
      exact ih2.trans ih1
end

theorem evictStep_nextIdent (i : Int) (s : World × QHash) :
    (evictStep i s).1.nextIdent = s.1.nextIdent := by
  unfold evictStep
  split
  · simp only [QHash.take]
    cases hv : QHash.value s.2 i with
    | none => rfl
    | some c => exact setMenuModel_nextIdent s.1 c none
  · rfl

theorem evictLoop_nextIdent (n : Nat) (p : Int) (s : World × QHash) :
    (forUp evictStep n p s).1.nextIdent = s.1.nextIdent := by
  induction n with
  | zero => rfl
  | succ m ih => rw [forUp_succ, evictStep_nextIdent, ih]

/-- `onItemsChanged` allocates no object. -/
theorem onItemsChanged_nextIdent (w : World) (model : Nat) (p rm ad : Int)
    (self : QMenuModel) :
    (onItemsChanged w model p rm ad self).1.nextIdent = w.nextIdent := by
  unfold onItemsChanged
  by_cases hrm : rm > 0 <;> by_cases had : ad > 0 <;>
    simp [hrm, had, evictLoop_nextIdent]

theorem construct_nextIdent (w : World) (other : Option Nat) :
    (construct w other).1.nextIdent = w.nextIdent + 1 := by
  unfold construct
  exact setMenuModel_nextIdent _ _ _

theorem construct_m_cache (w : World) (other : Option Nat) :
    (construct w other).2.m_cache = [] := by
  show (setMenuModel _ ⟨w.nextIdent, none, 0, 0, [], false, []⟩ other).2.m_cache = []
  by_cases h : (none : Option Nat) = other
  · subst h
    rw [setMenuModel_same _ _ none rfl]
  · exact setMenuModel_m_cache _ _ _ h


theorem CacheOk_nil (N : Nat) : CacheOk N [] := by
  constructor
  · intro k v h; simp [QHash.value] at h
  · intro k1 k2 c1 c2 h; simp [QHash.value] at h

theorem CacheOk_remove (N : Nat) (c : QHash) (i : Int) (h : CacheOk N c) :
    CacheOk N (QHash.remove c i) := by
  constructor
  · intro k v hv
    rw [QHash.value_remove] at hv
    by_cases hk : k = i
    · rw [if_pos hk] at hv; cases hv
    · rw [if_neg hk] at hv; exact h.1 k v hv
  · intro k1 k2 c1 c2 h1 h2 hid
    rw [QHash.value_remove] at h1 h2
    by_cases hk1 : k1 = i
    · rw [if_pos hk1] at h1; cases h1
    · by_cases hk2 : k2 = i
      · rw [if_pos hk2] at h2; cases h2
      · rw [if_neg hk1] at h1
        rw [if_neg hk2] at h2
        exact h.2 k1 k2 c1 c2 h1 h2 hid

/-- Moving the entry of one row to another row keeps the cache well formed. -/
theorem CacheOk_move (N : Nat) (c : QHash) (i j : Int) (v : QMenuModel) (h : CacheOk N c)
    (hv : QHash.value c i = some v) : CacheOk N (QHash.insert (QHash.remove c i) j v) := by
  have key : ∀ k x, QHash.value (QHash.insert (QHash.remove c i) j v) k = some x →
      (k = j ∧ x = v) ∨ (k ≠ j ∧ k ≠ i ∧ QHash.value c k = some x) := by
    intro k x hx
    rw [QHash.value_insert, QHash.value_remove] at hx
    by_cases hkj : k = j
    · rw [if_pos hkj] at hx
      exact Or.inl ⟨hkj, (Option.some.inj hx).symm⟩
    · rw [if_neg hkj] at hx
      by_cases hki : k = i
      · rw [if_pos hki] at hx; cases hx
      · rw [if_neg hki] at hx
        exact Or.inr ⟨hkj, hki, hx⟩
  constructor
  · intro k x hx
    rcases key k x hx with ⟨_, rfl⟩ | ⟨_, _, hc⟩
    · exact h.1 i x hv
    · exact h.1 k x hc
  · intro k1 k2 c1 c2 h1 h2 hid
    rcases key k1 c1 h1 with ⟨e1, rfl⟩ | ⟨n1, m1, hc1⟩ <;>
      rcases key k2 c2 h2 with ⟨e2, rfl⟩ | ⟨n2, m2, hc2⟩
    · rw [e1, e2]
    · exact absurd (h.2 k2 i c2 c1 hc2 hv hid.symm) m2
    · exact absurd (h.2 k1 i c1 c2 hc1 hv hid) m1
    · exact h.2 k1 k2 c1 c2 hc1 hc2 hid

/-- Caching a newly allocated object keeps the cache well formed. -/
theorem CacheOk_insert_new (N : Nat) (c : QHash) (k : Int) (v : QMenuModel)
    (h : CacheOk N c) (hv : v.ident = N) : CacheOk (N + 1) (QHash.insert c k v) := by
  have key : ∀ j x, QHash.value (QHash.insert c k v) j = some x →
      (j = k ∧ x = v) ∨ (j ≠ k ∧ QHash.value c j = some x) := by
    intro j x hx
    rw [QHash.value_insert] at hx
    by_cases hjk : j = k
    · rw [if_pos hjk] at hx
      exact Or.inl ⟨hjk, (Option.some.inj hx).symm⟩
    · rw [if_neg hjk] at hx
      exact Or.inr ⟨hjk, hx⟩
  constructor
  · intro j x hx
    rcases key j x hx with ⟨_, rfl⟩ | ⟨_, hc⟩
    · omega
    · have := h.1 j x hc; omega
  · intro k1 k2 c1 c2 h1 h2 hid
    rcases key k1 c1 h1 with ⟨e1, rfl⟩ | ⟨n1, hc1⟩ <;>
      rcases key k2 c2 h2 with ⟨e2, rfl⟩ | ⟨n2, hc2⟩
    · rw [e1, e2]
    · have := h.1 k2 c2 hc2; omega
    · have := h.1 k1 c1 hc1; omega
    · exact h.2 k1 k2 c1 c2 hc1 hc2 hid

theorem CacheOk_evictStep (N : Nat) (i : Int) (s : World × QHash) (h : CacheOk N s.2) :
    CacheOk N (evictStep i s).2 := by
  rw [evictStep_cache]
  split
  · exact CacheOk_remove N _ i h
  · exact h

theorem CacheOk_rekeyDown (N : Nat) (rm i : Int) (c : QHash) (h : CacheOk N c) :
    CacheOk N (rekeyDown rm i c) := by
  unfold rekeyDown
  split
  · simp only [QHash.take]
    cases hv : QHash.value c i with
    | none => exact CacheOk_remove N c i h
    | some v => exact CacheOk_move N c i (i - rm) v h hv
  · exact h

theorem CacheOk_rekeyUp (N : Nat) (ad i : Int) (c : QHash) (h : CacheOk N c) :
    CacheOk N (rekeyUp ad i c) := by
  unfold rekeyUp
  split
  · simp only [QHash.take]
    cases hv : QHash.value c i with
    | none => exact CacheOk_remove N c i h
    | some v => exact CacheOk_move N c i (i + ad) v h hv
  · exact h

theorem forUp_keeps {σ : Type} (P : σ → Prop) (body : Int → σ → σ)
    (hstep : ∀ i s, P s → P (body i s)) (n : Nat) (i : Int) (s : σ) (h : P s) :
    P (forUp body n i s) := by
  induction n with
  | zero => exact h
  | succ m ih => rw [forUp_succ]; exact hstep _ _ ih

theorem forDown_keeps {σ : Type} (P : σ → Prop) (body : Int → σ → σ)
    (hstep : ∀ i s, P s → P (body i s)) (n : Nat) (i : Int) (s : σ) (h : P s) :
    P (forDown body n i s) := by
  induction n with
  | zero => exact h
  | succ m ih => rw [forDown_succ]; exact hstep _ _ ih

/-- Any batch, valid or not, keeps the cache well formed: entries are removed or moved,
never copied. -/
theorem CacheOk_onItemsChanged (N : Nat) (w : World) (model : Nat) (p rm ad : Int)
    (self : QMenuModel) (h : CacheOk N self.m_cache) :
    CacheOk N (onItemsChanged w model p rm ad self).2.m_cache := by
  rw [onItemsChanged_m_cache]
  have h1 : CacheOk N (if rm > 0 then
        forUp (rekeyDown rm) (g_menu_model_get_n_items w model + rm - ad - (p + rm)).toNat
          (p + rm) (forUp evictStep ((p + rm) - p).toNat p (w, self.m_cache)).2
       else self.m_cache) := by
    split
    · apply forUp_keeps (CacheOk N) _ (fun i s hs => CacheOk_rekeyDown N rm i s hs)
      exact forUp_keeps (fun s : World × QHash => CacheOk N s.2) _
        (fun i s hs => CacheOk_evictStep N i s hs) _ _ _ h
    · exact h
  split
  · exact forDown_keeps (CacheOk N) _ (fun i s hs => CacheOk_rekeyUp N ad i s hs) _ _ _ h1
  · exact h1

/-- In every reachable state the cache is well formed with respect to the allocation
counter of the world. -/
theorem Reachable_CacheOk (s : World × QMenuModel) (hr : Reachable s) :
    CacheOk s.1.nextIdent s.2.m_cache := by
  induction hr with
  | init w other =>
    rw [construct_m_cache]
    exact CacheOk_nil _
  | attach s other _ ih =>
    by_cases h : s.2.m_menuModel = other
    · rw [setMenuModel_same _ _ _ h]
      exact ih
    · rw [setMenuModel_m_cache _ _ _ h]
      exact CacheOk_nil _
  | link s row linkName _ ih =>
    cases hm : s.2.m_menuModel with
    | none =>
      have : getLink s.1 s.2 row linkName = (s.1, s.2, QVariant.invalid) := by
        unfold getLink
        rw [hm]
        rfl
      rw [this]
      exact ih
    | some m =>
      cases hl : g_menu_model_get_item_link s.1 m row linkName with
      | none =>
        have : getLink s.1 s.2 row linkName = (s.1, s.2, QVariant.invalid) := by
          unfold getLink
          rw [hm]
          simp only [Option.bind]
          rw [hl]
        rw [this]
        exact ih
      | some l =>
        cases hv : QHash.value s.2.m_cache row with
        | some cached =>
          rw [getLink_hit s.1 s.2 row linkName m l cached hm hl hv]
          exact ih
        | none =>
          rw [getLink_miss s.1 s.2 row linkName m l hm hl hv]
          show CacheOk ((construct _ _).1.call _).nextIdent (QHash.insert s.2.m_cache row _)
          rw [call_nextIdent, construct_nextIdent, call_nextIdent]
          exact CacheOk_insert_new _ _ _ _ ih (by rw [construct_ident, call_nextIdent])
  | change s model n _ ih =>
    unfold deliver
    rw [onItemsChanged_nextIdent]
    exact CacheOk_onItemsChanged _ _ _ _ _ _ _ ih

/-- C13. In every state reached from construction by `setMenuModel`, `getLink` and
`onItemsChanged`, two different rows of the cache never hold the same object, whatever the
sources of their links. -/
theorem cache_injective (s : World × QMenuModel) (hr : Reachable s) (k1 k2 : Int)
    (c1 c2 : QMenuModel) (h1 : QHash.value s.2.m_cache k1 = some c1)
    (h2 : QHash.value s.2.m_cache k2 = some c2) (hk : k1 ≠ k2) : c1.ident ≠ c2.ident :=
  fun hid => hk ((Reachable_CacheOk s hr).2 k1 k2 c1 c2 h1 h2 hid)


theorem replaceRows_length (items : List GMenuItem) (p rm : Nat) (newItems : List GMenuItem)
    (h : p + rm ≤ items.length) :
    (replaceRows items p rm newItems).length + rm = items.length + newItems.length := by
  simp only [replaceRows, List.length_append, List.length_take, List.length_drop]
  omega

theorem replaceRows_before (items : List GMenuItem) (p rm : Nat) (newItems : List GMenuItem)
    (h : p + rm ≤ items.length) (n : Nat) (hn : n < p) :
    (replaceRows items p rm newItems)[n]? = items[n]? := by
  unfold replaceRows
  have h1 : n < (List.take p items).length := by
    rw [List.length_take]; omega
  rw [List.append_assoc, List.getElem?_append_left h1, List.getElem?_take, if_pos hn]

theorem replaceRows_after (items : List GMenuItem) (p rm : Nat) (newItems : List GMenuItem)
    (h : p + rm ≤ items.length) (n : Nat) (hn : p + newItems.length ≤ n) :
    (replaceRows items p rm newItems)[n]? = items[n - newItems.length + rm]? := by
  unfold replaceRows
  have h1 : (List.take p items ++ newItems).length ≤ n := by
    rw [List.length_append, List.length_take]; omega
  rw [List.getElem?_append_right h1, List.getElem?_drop]
  congr 1
  rw [List.length_append, List.length_take]
  omega

theorem itemAt_eq (items : List GMenuItem) (row : Int) (n : Nat) (h : row = (n : Int)) :
    itemAt items row = items[n]? := by
  subst h
  simp [itemAt]

/-- C15. Let the source hold `items` before a valid batch that replaces the `rm` items at
`p` by `newItems`. If every cached row holds a link-bearing item before the batch, then
after `onItemsChanged` every cached row is a row of the new source, outside the inserted
range, and holds the very item its object was keyed to before, which was outside the
removed range. -/
theorem cache_keys_follow_items (w : World) (model : Nat) (self : QMenuModel)
    (items : List GMenuItem) (p rm : Nat) (newItems : List GMenuItem)
    (hvalid : p + rm ≤ items.length)
    (hsrc : w.items model = replaceRows items p rm newItems)
    (hkeys : ∀ k c, QHash.value self.m_cache k = some c →
      ∃ item, itemAt items k = some item ∧ linkBearing item = true) :
    ∀ k c, QHash.value
        (onItemsChanged w model p rm newItems.length self).2.m_cache k = some c →
      (0 ≤ k ∧ k < ((replaceRows items p rm newItems).length : Int)) ∧
      ¬ ((p : Int) ≤ k ∧ k < p + newItems.length) ∧
      ∃ k0 item, QHash.value self.m_cache k0 = some c ∧
        ¬ ((p : Int) ≤ k0 ∧ k0 < p + rm) ∧
        itemAt items k0 = some item ∧
        itemAt (replaceRows items p rm newItems) k = some item ∧
        linkBearing item = true := by
  intro k c hk
  have hlen := replaceRows_length items p rm newItems hvalid
  have hrange : ∀ j x, QHash.value self.m_cache j = some x →
      0 ≤ j ∧ j < (items.length : Int) := by
    intro j x hx
    obtain ⟨item, hi, _⟩ := hkeys j x hx
    exact itemAt_range _ _ _ hi
  rw [onItemsChanged_value w model p rm newItems.length items.length self
    (by omega) (by omega) (by omega)
    (by unfold g_menu_model_get_n_items; rw [hsrc]; omega) hrange] at hk
  by_cases c1 : k < (p : Int)
  · rw [if_pos c1] at hk
    obtain ⟨item, hi, hl⟩ := hkeys k c hk
    have hr := hrange k c hk
    have hnew : itemAt (replaceRows items p rm newItems) k = some item := by
      rw [itemAt_eq _ k k.toNat (by omega),
        replaceRows_before items p rm newItems hvalid k.toNat (by omega),
        ← itemAt_eq items k k.toNat (by omega)]
      exact hi
    exact ⟨itemAt_range _ _ _ hnew, by omega, k, item, hk, by omega, hi, hnew, hl⟩
  · rw [if_neg c1] at hk
    by_cases c2 : k < (p : Int) + newItems.length
    · rw [if_pos c2] at hk; cases hk
    · rw [if_neg c2] at hk
      obtain ⟨item, hi, hl⟩ := hkeys _ c hk
      have hr := hrange _ c hk
      have hnew : itemAt (replaceRows items p rm newItems) k = some item := by
        rw [itemAt_eq _ k k.toNat (by omega),
          replaceRows_after items p rm newItems hvalid k.toNat (by omega),
          ← itemAt_eq items (k - newItems.length + rm) (k.toNat - newItems.length + rm)
            (by omega)]
        exact hi
      exact ⟨itemAt_range _ _ _ hnew, by omega, k - newItems.length + rm, item, hk,
        by omega, hi, hnew, hl⟩


theorem idents_eq (c : QMenuModel) : idents c = c.ident :: cacheIdents c.m_cache := by
  cases c
  simp [idents]

theorem ident_mem_idents (c : QMenuModel) : c.ident ∈ idents c := by
  rw [idents_eq]; exact List.mem_cons_self _ _

theorem cacheIdents_cons (k : Int) (c : QMenuModel) (rest : List (Int × QMenuModel)) :
    cacheIdents ((k, c) :: rest) = idents c ++ cacheIdents rest := by
  simp [cacheIdents]

theorem mem_cacheIdents (cache : List (Int × QMenuModel)) (k : Int) (c : QMenuModel)
    (h : (k, c) ∈ cache) (x : Nat) (hx : x ∈ idents c) : x ∈ cacheIdents cache := by
  induction cache with
  | nil => cases h
  | cons e rest ih =>
    obtain ⟨k', c'⟩ := e
    rw [cacheIdents_cons]
    rcases List.mem_cons.1 h with heq | hr
    · cases heq
      exact List.mem_append_left _ hx
    · exact List.mem_append_right _ (ih hr)

/-- Objects cached under different rows share no identity, in a cache without repeated
identities. -/
theorem cacheIdents_disjoint (cache : List (Int × QMenuModel))
    (hnd : (cacheIdents cache).Nodup) (k1 k2 : Int) (c1 c2 : QMenuModel)
    (h1 : (k1, c1) ∈ cache) (h2 : (k2, c2) ∈ cache) (hk : k1 ≠ k2) (x : Nat)
    (hx1 : x ∈ idents c1) : x ∉ idents c2 := by
  induction cache with
  | nil => cases h1
  | cons e rest ih =>
    obtain ⟨k, c⟩ := e
    rw [cacheIdents_cons] at hnd
    have hd := List.disjoint_of_nodup_append hnd
    have hr := (List.nodup_append.1 hnd).2.1
    rcases List.mem_cons.1 h1 with e1 | r1 <;> rcases List.mem_cons.1 h2 with e2 | r2
    · cases e1; cases e2; exact absurd rfl hk
    · cases e1
      intro hx2
      exact hd hx1 (mem_cacheIdents rest k2 c2 r2 x hx2)
    · cases e2
      intro hx2
      exact hd hx2 (mem_cacheIdents rest k1 c1 r1 x hx1)
    · exact ih hr r1 r2

theorem cacheIdents_inj (cache : QHash) (hnd : (cacheIdents cache).Nodup) (k1 k2 : Int)
    (c1 c2 : QMenuModel) (h1 : QHash.value cache k1 = some c1)
    (h2 : QHash.value cache k2 = some c2) (hid : c1.ident = c2.ident) : k1 = k2 := by
  by_contra hk
  exact cacheIdents_disjoint cache hnd k1 k2 c1 c2 (QHash.value_mem _ _ _ h1)
    (QHash.value_mem _ _ _ h2) hk c1.ident (ident_mem_idents c1)
    (by rw [hid]; exact ident_mem_idents c2)

mutual
/-- Whatever `setMenuModel` appends to the deletion queue comes from below the object. -/
theorem setMenuModel_queue (w : World) (self : QMenuModel) (other : Option Nat) :
    ∃ l, (setMenuModel w self other).1.deleteLater = w.deleteLater ++ l ∧
      ∀ q ∈ l, q.ident ∈ cacheIdents self.m_cache :=
  match self with
  | ⟨ident, menuModel, signalChangedId, rowCount, cache, connected, emitted⟩ => by
    have ih := clearChildren_queue false
      (releaseSource w (beginResetModel
        ⟨ident, menuModel, signalChangedId, rowCount, cache, connected, emitted⟩)).1 cache
    rw [setMenuModel_unfold]
    by_cases h : menuModel = other
    · rw [if_pos h]
      exact ⟨[], by simp, by simp⟩
    · rw [if_neg h]
      simp only [clearModel, bindSource_deleteLater, releaseSource_m_cache, beginResetModel,
        emit_m_cache]
      simp only [beginResetModel, releaseSource_deleteLater] at ih
      exact ih
/-- Whatever the loop of `clearModel` appends to the deletion queue comes from the cache. -/
theorem clearChildren_queue (d : Bool) (w : World) (cache : List (Int × QMenuModel)) :
    ∃ l, (clearChildren d w cache).deleteLater = w.deleteLater ++ l ∧
      ∀ q ∈ l, q.ident ∈ cacheIdents cache :=
  match cache with
  | [] => by
    rw [clearChildren]
    exact ⟨[], by simp, by simp⟩
  | (k, child) :: rest => by
    have ih1 := setMenuModel_queue w child none
    cases d with
    | true =>
      have ih2 := clearChildren_queue true
        { w with deleteLater := w.deleteLater ++ [child] } rest
      simp only [clearChildren, if_true]
      obtain ⟨l2, e2, h2⟩ := ih2
      refine ⟨[child] ++ l2, by rw [e2]; simp, ?_⟩
      intro q hq
      rw [cacheIdents_cons]
      rcases List.mem_append.1 hq with hq1 | hq2
      · rw [List.mem_singleton.1 hq1]
        exact List.mem_append_left _ (ident_mem_idents child)
      · exact List.mem_append_right _ (h2 q hq2)
    | false =>
      have ih2 := clearChildren_queue false
        { (setMenuModel w child none).1 with
          deleteLater := (setMenuModel w child none).1.deleteLater ++
            [(setMenuModel w child none).2] } rest
      simp only [clearChildren, Bool.false_eq_true, if_false]
      obtain ⟨l1, e1, h1⟩ := ih1
      obtain ⟨l2, e2, h2⟩ := ih2
      refine ⟨l1 ++ [(setMenuModel w child none).2] ++ l2, ?_, ?_⟩
      · rw [e2]
        simp only [e1]
        simp
      · intro q hq
        rw [cacheIdents_cons]
        rcases List.mem_append.1 hq with hq12 | hq2
        · rcases List.mem_append.1 hq12 with hq1 | hqc
          · refine List.mem_append_left _ ?_
            rw [idents_eq]
            exact List.mem_cons_of_mem _ (h1 q hq1)
          · rw [List.mem_singleton.1 hqc, setMenuModel_ident]
            exact List.mem_append_left _ (ident_mem_idents child)
        · exact List.mem_append_right _ (h2 q hq2)
end


/-- One iteration of the eviction loop on an uncached row leaves the world alone. -/
theorem evictStep_world_none (i : Int) (s : World × QHash)
    (h : QHash.value s.2 i = none) : (evictStep i s).1 = s.1 := by
  unfold evictStep
  rw [QHash.contains_iff, h]
  rfl

/-- One iteration of the eviction loop on a cached row: what the detachment of the child
queues, then the detached child. -/
theorem evictStep_world_some (i : Int) (s : World × QHash) (ev : QMenuModel)
    (h : QHash.value s.2 i = some ev) :
    ∃ l, (evictStep i s).1.deleteLater =
        s.1.deleteLater ++ (l ++ [(setMenuModel s.1 ev none).2]) ∧
      ∀ q ∈ l, q.ident ∈ cacheIdents ev.m_cache := by
  obtain ⟨l, e, hl⟩ := setMenuModel_queue s.1 ev none
  refine ⟨l, ?_, hl⟩
  unfold evictStep
  rw [QHash.contains_iff, h]
  simp only [Option.isSome_some, if_true, QHash.take, h]
  rw [e, List.append_assoc]

/-- The deletion queue after the eviction loop: every child cached in the range has its
detached state queued, and every queued object comes from a child cached in the range. -/
theorem evictLoop_queue (n : Nat) (p : Int) (w : World) (c : QHash) :
    ∃ l, (forUp evictStep n p (w, c)).1.deleteLater = w.deleteLater ++ l ∧
      (∀ i ev, p ≤ i → i < p + n → QHash.value c i = some ev →
        ∃ wi, (setMenuModel wi ev none).2 ∈ l) ∧
      (∀ q ∈ l, ∃ i ev, p ≤ i ∧ i < p + n ∧ QHash.value c i = some ev ∧
        q.ident ∈ idents ev) := by
  induction n with
  | zero =>
    refine ⟨[], by simp [forUp], ?_, by simp⟩
    intro i ev h1 h2
    exact absurd h2 (by omega)
  | succ m ih =>
    obtain ⟨l, e, hin, hout⟩ := ih
    have hval : QHash.value (forUp evictStep m p (w, c)).2 (p + m) = QHash.value c (p + m) := by
      rw [value_evictLoop]
      have : ¬ (p ≤ p + (m : Int) ∧ p + (m : Int) < p + m) := by omega
      rw [if_neg this]
    rw [forUp_succ]
    cases hv : QHash.value c (p + m) with
    | none =>
      rw [evictStep_world_none _ _ (by rw [hval, hv])]
      refine ⟨l, e, ?_, ?_⟩
      · intro i ev h1 h2 h3
        by_cases hi : i = p + m
        · rw [hi, hv] at h3; cases h3
        · exact hin i ev h1 (by omega) h3
      · intro q hq
        obtain ⟨i, ev, h1, h2, h3, h4⟩ := hout q hq
        exact ⟨i, ev, h1, by omega, h3, h4⟩
    | some ev0 =>
      obtain ⟨l1, e1, h1⟩ := evictStep_world_some (p + m) (forUp evictStep m p (w, c)) ev0
        (by rw [hval, hv])
      refine ⟨l ++ (l1 ++ [(setMenuModel (forUp evictStep m p (w, c)).1 ev0 none).2]), ?_,
        ?_, ?_⟩
      · rw [e1, e, List.append_assoc]
      · intro i ev h1' h2 h3
        by_cases hi : i = p + m
        · rw [hi, hv] at h3
          cases h3
          exact ⟨(forUp evictStep m p (w, c)).1, by simp⟩
        · obtain ⟨wi, hwi⟩ := hin i ev h1' (by omega) h3
          exact ⟨wi, List.mem_append_left _ hwi⟩
      · intro q hq
        rcases List.mem_append.1 hq with hq0 | hq1
        · obtain ⟨i, ev, a1, a2, a3, a4⟩ := hout q hq0
          exact ⟨i, ev, a1, by omega, a3, a4⟩
        · refine ⟨p + m, ev0, by omega, by omega, hv, ?_⟩
          rcases List.mem_append.1 hq1 with hq2 | hq3
          · rw [idents_eq]
            exact List.mem_cons_of_mem _ (h1 q hq2)
          · rw [List.mem_singleton.1 hq3, setMenuModel_ident]
            exact ident_mem_idents ev0

/-- The world left by `onItemsChanged` is the one left by its eviction loop. -/
theorem onItemsChanged_world (w : World) (model : Nat) (p rm ad : Int) (self : QMenuModel) :
    (onItemsChanged w model p rm ad self).1 =
      if rm > 0 then (forUp evictStep ((p + rm) - p).toNat p (w, self.m_cache)).1 else w := by
  unfold onItemsChanged
  by_cases hrm : rm > 0 <;> by_cases had : ad > 0 <;>
    simp [hrm, had, beginRemoveRows]

/-- The state in which `setMenuModel(NULL)` leaves an object. -/
theorem setMenuModel_none_state (w : World) (c : QMenuModel) :
    (setMenuModel w c none).2.ident = c.ident ∧
      (setMenuModel w c none).2.m_menuModel = none ∧
      (setMenuModel w c none).2.emitted =
        c.emitted ++
          (if c.m_menuModel = none then []
           else [Signal.modelAboutToBeReset, Signal.modelReset] ++
             (if c.countChangedConnected then [Signal.countChanged] else [])) ∧
      (c.m_menuModel ≠ none →
        (setMenuModel w c none).2.m_rowCount = 0 ∧ (setMenuModel w c none).2.m_cache = []) ∧
      (c.m_menuModel = none → (setMenuModel w c none).2 = c) := by
  refine ⟨setMenuModel_ident _ _ _, setMenuModel_m_menuModel _ _ _, ?_, ?_, ?_⟩
  · by_cases h : c.m_menuModel = none
    · rw [setMenuModel_same _ _ _ h, if_pos h, List.append_nil]
    · rw [setMenuModel_emitted _ _ _ h, if_neg h]
  · intro h
    exact ⟨by rw [setMenuModel_m_rowCount _ _ _ h], setMenuModel_m_cache _ _ _ h⟩
  · intro h
    rw [setMenuModel_same _ _ _ h]

/-- C16 fails as stated: in scenario B, a batch that removes the rows 3 and 4 evicts the
child cached at row 4, and the evicted child has emitted a second reset pair and a
`countChanged` after the reset pair of its construction. -/
theorem evicted_child_emits_reset :
    (QHash.value scenarioB.2.m_cache 4).map (fun c => (c.ident, c.emitted)) =
        some (101, [Signal.modelAboutToBeReset, Signal.modelReset]) ∧
      (deliver 10 scenarioB scenarioEvictBatch).1.deleteLater.map
          (fun q => (q.ident, q.emitted)) =
        [(101, [Signal.modelAboutToBeReset, Signal.modelReset,
                Signal.modelAboutToBeReset, Signal.modelReset, Signal.countChanged])] := by
  decide

/-- C16, as the code has it. A child cached at a row of the removed range is detached with
`setMenuModel(NULL)` and queued: the queued object has no source, and on the child itself
the detachment emits reset-begin and reset-end, followed by `countChanged` when the
constructor has wired it, if the child had a source, and nothing if it had none. No row
notification is emitted on the child. -/
theorem evicted_child_signals (w : World) (model : Nat) (p rm ad : Int) (self : QMenuModel)
    (r : Int) (child : QMenuModel) (hr1 : p ≤ r) (hr2 : r < p + rm)
    (hc : QHash.value self.m_cache r = some child) :
    ∃ q ∈ (onItemsChanged w model p rm ad self).1.deleteLater,
      q.ident = child.ident ∧ q.m_menuModel = none ∧
      q.emitted =
        child.emitted ++
          (if child.m_menuModel = none then []
           else [Signal.modelAboutToBeReset, Signal.modelReset] ++
             (if child.countChangedConnected then [Signal.countChanged] else [])) := by
  have hrm : rm > 0 := by omega
  rw [onItemsChanged_world, if_pos hrm]
  obtain ⟨l, e, hin, _⟩ := evictLoop_queue ((p + rm) - p).toNat p w self.m_cache
  obtain ⟨wi, hwi⟩ := hin r child hr1 (by omega) hc
  obtain ⟨h1, h2, h3, _, _⟩ := setMenuModel_none_state wi child
  exact ⟨_, by rw [e]; exact List.mem_append_right _ hwi, h1, h2, h3⟩


/-! ## Cached children of reachable states -/

/-- An instance of C12: the keys of the extensions of row 0 of `scenarioRich`. -/
theorem scenarioRich_extra_keys :
    ∃ extra, getExtraProperties (fun _ => QVariant.invalid) scenarioRich.1 scenarioRich.2 0 =
        QVariant.map extra ∧
      (∀ key, key ∈ QMap.keys extra ↔
        ∃ a ∈ richItem.attributes, ∃ rest, a.1.data = 'x' :: '-' :: rest ∧
          key = String.mk (rest.map (fun c => if c = '-' then '_' else c))) ∧
      (∀ key ∈ QMap.keys extra, '-' ∉ key.data) :=
  getExtraProperties_keys (fun _ => QVariant.invalid) scenarioRich.1 scenarioRich.2 0 10
    richItem (by decide) (by decide)

/-- An instance of C13: the rows 0 and 1 of `scenarioTwins` link to the same source 11 and
hold the different objects 101 and 102. -/
theorem scenarioTwins_distinct :
    QHash.value scenarioTwins.2.m_cache 0 =
        some ⟨101, some 11, 2, 1, [], true, [Signal.modelAboutToBeReset, Signal.modelReset]⟩ ∧
      QHash.value scenarioTwins.2.m_cache 1 =
        some ⟨102, some 11, 3, 1, [], true, [Signal.modelAboutToBeReset, Signal.modelReset]⟩ ∧
      (101 : Nat) ≠ 102 :=
  ⟨rfl, rfl,
    cache_injective scenarioTwins
      (Reachable.link _ 1 "submenu" (Reachable.link _ 0 "submenu" (Reachable.init _ _)))
      0 1
      ⟨101, some 11, 2, 1, [], true, [Signal.modelAboutToBeReset, Signal.modelReset]⟩
      ⟨102, some 11, 3, 1, [], true, [Signal.modelAboutToBeReset, Signal.modelReset]⟩
      rfl rfl (by decide)⟩

/-- Scenario C, an instance of C15: after two items are inserted at row 1, the object cached
at row 3 is cached at row 5, where the item it was keyed to now is. -/
theorem scenarioC_keys_follow :
    (0 ≤ (5 : Int) ∧ (5 : Int) <
        ((replaceRows [plainItem, plainItem, plainItem, linkItem, plainItem] 1 0
          [plainItem, plainItem]).length : Int)) ∧
      ¬ (((1 : Nat) : Int) ≤ 5 ∧ (5 : Int) < (1 : Nat) + [plainItem, plainItem].length) ∧
      ∃ k0 item, QHash.value scenarioC.2.m_cache k0 =
          some ⟨101, some 11, 2, 1, [], true,
            [Signal.modelAboutToBeReset, Signal.modelReset]⟩ ∧
        ¬ (((1 : Nat) : Int) ≤ k0 ∧ k0 < (1 : Nat) + (0 : Nat)) ∧
        itemAt [plainItem, plainItem, plainItem, linkItem, plainItem] k0 = some item ∧
        itemAt (replaceRows [plainItem, plainItem, plainItem, linkItem, plainItem] 1 0
          [plainItem, plainItem]) 5 = some item ∧
        linkBearing item = true :=
  cache_keys_follow_items
    (scenarioC.1.setItems 10
      (replaceRows [plainItem, plainItem, plainItem, linkItem, plainItem] 1 0
        [plainItem, plainItem]))
    10 scenarioC.2 [plainItem, plainItem, plainItem, linkItem, plainItem] 1 0
    [plainItem, plainItem] (by decide) (by decide)
    (by
      intro k c h
      rw [scenarioC_cache] at h
      simp only [QHash.value] at h
      by_cases hk : (3 : Int) = k
      · subst hk
        exact ⟨linkItem, by decide, by decide⟩
      · rw [if_neg hk] at h; cases h)
    5 _ rfl

/-- An instance of the amended C16: the child evicted from row 4 of scenario B. -/
theorem scenarioB_evicted_signals :
    ∃ q ∈ (onItemsChanged (scenarioB.1.setItems 10 scenarioEvictBatch.items) 10 3 2 0
        scenarioB.2).1.deleteLater,
      q.ident = 101 ∧ q.m_menuModel = none ∧
      q.emitted =
        [Signal.modelAboutToBeReset, Signal.modelReset] ++
          ([Signal.modelAboutToBeReset, Signal.modelReset] ++ [Signal.countChanged]) :=
  evicted_child_signals (scenarioB.1.setItems 10 scenarioEvictBatch.items) 10 3 2 0
    scenarioB.2 4
    ⟨101, some 11, 2, 1, [], true, [Signal.modelAboutToBeReset, Signal.modelReset]⟩
    (by decide) (by decide) (by rw [scenarioB_cache]; rfl)

/-- Scenario A, an instance of C18: the batch `(2, 1, 3)` against the removal `(2, 1, 0)`
followed by the insertion `(2, 0, 3)`. -/
theorem scenarioA_replace_sequential :
    (deliver 10 (deliver 10 scenarioA ⟨[plainItem, plainItem, plainItem, plainItem], 2, 1, 0⟩)
        ⟨scenarioABatch.items, 2, 0, 3⟩).2 =
      (deliver 10 scenarioA ⟨scenarioABatch.items, 2, 1, 3⟩).2 :=
  replace_is_remove_then_insert 10 scenarioA 2 1 3
    [plainItem, plainItem, plainItem, plainItem] scenarioABatch.items (by decide)

/-- An instance of C19: on row 0 of `scenarioRich`, the submenu role read after the section
role returns the object made for the section link. -/
theorem scenarioRich_links_share :
    (data (fun _ => QVariant.invalid)
        (data (fun _ => QVariant.invalid) scenarioRich.1 scenarioRich.2 0 LinkSection).1
        (data (fun _ => QVariant.invalid) scenarioRich.1 scenarioRich.2 0 LinkSection).2.1
        0 LinkSubMenu).2.2 =
      (data (fun _ => QVariant.invalid) scenarioRich.1 scenarioRich.2 0 LinkSection).2.2 :=
  (link_roles_share_child (fun _ => QVariant.invalid) scenarioRich.1 scenarioRich.2 0 10 12 11
    (by decide) (by decide) (by decide)).1.1

end QMenuModel
end Menu
